import Mathlib

/-!
Shallow embedding of the `mot` street-network routing engine core
(`src/mvtr`: fixed-point units, routing-cost algebra, graph ingestion and
Dijkstra search; `src/demo-app`: the JS costing binding), together with
theorems settling the frozen claims about its specification.

Machine integers are modelled as `Nat` (u64/u32) and `Int` (i32), with
explicit wrap-around (`% 2^w`) at the points where the source performs
overflowing or wrapping arithmetic.  Release-build semantics are used:
`debug_assert!` checks are omitted, integer overflow wraps, while
`assert_eq!` remains live (modelled as returning `none` for a panic).
-/

namespace Mot

/-- Maximum value of a u64. -/
def U64MAX : Nat := 2 ^ 64 - 1

/-- Saturating u64 addition (`u64::saturating_add`). -/
def satAdd64 (a b : Nat) : Nat := min (a + b) U64MAX

/-- Travel direction along a way (`units::Direction`). -/
inductive Direction where
  | forward
  | reverse
deriving DecidableEq, Repr

/-- Division of a travelled distance (mm, u64) by a travel speed (µm/ms, u32),
from `impl Div<TravelSpeed> for TravelledDistance` in `costing/units.rs`:
returns `none` on zero speed or on u64 overflow of `mm * 1000`, otherwise
`some` of the elapsed milliseconds. -/
def divSpeed (distance_mm : Nat) (um_per_ms : Nat) : Option Nat :=
  if um_per_ms = 0 then
    none
  else
    let micrometers := (distance_mm * 1000) % 2 ^ 64
    let overflow := 2 ^ 64 ≤ distance_mm * 1000
    if overflow then
      none
    else
      some (micrometers / um_per_ms)

/-- Multiplication of an elapsed time (ms, u64) by a parts-per-million penalty
(u32), from `impl Mul<PartsPerMillion> for ElapsedTime` in `costing/units.rs`:
overflow of the u64 product yields zero elapsed time, otherwise the product is
divided by 1 000 000. -/
def mulPpm (ms : Nat) (ppm : Nat) : Nat :=
  let product := (ms * ppm) % 2 ^ 64
  let overflow := 2 ^ 64 ≤ ms * ppm
  if overflow then 0 else product / 1000000

/-- Routing cost triple from `costing/mod.rs` (`RoutingCost`); all three
components are u64 values. -/
structure RoutingCost where
  cost_millis : Nat
  actual_millis : Nat
  distance_mm : Nat
deriving DecidableEq, Repr

/-- Component-wise saturating addition (`impl Add for RoutingCost`). -/
def RoutingCost.add (a b : RoutingCost) : RoutingCost :=
  { cost_millis := satAdd64 a.cost_millis b.cost_millis
    actual_millis := satAdd64 a.actual_millis b.actual_millis
    distance_mm := satAdd64 a.distance_mm b.distance_mm }

/-- The zero routing cost (`RoutingCost::zero`). -/
def RoutingCost.zero : RoutingCost :=
  { cost_millis := 0, actual_millis := 0, distance_mm := 0 }

/-- Lexicographic comparison of routing costs, translated from the manual
`PartialOrd` implementation in `costing/mod.rs` (u64 comparison spelt out by
cases). -/
def cmpCost (a b : RoutingCost) : Ordering :=
  if a.cost_millis < b.cost_millis then .lt
  else if b.cost_millis < a.cost_millis then .gt
  else if a.actual_millis < b.actual_millis then .lt
  else if b.actual_millis < a.actual_millis then .gt
  else if a.distance_mm < b.distance_mm then .lt
  else if b.distance_mm < a.distance_mm then .gt
  else .eq

/-- Strict order on routing costs: Rust `a < b` via `partial_cmp`. -/
def ltCost (a b : RoutingCost) : Prop := cmpCost a b = .lt

/-- Non-strict order on routing costs: Rust `a >= b` is `leCost b a`. -/
def leCost (a b : RoutingCost) : Prop := cmpCost a b ≠ .gt

instance (a b : RoutingCost) : Decidable (ltCost a b) := by
  unfold ltCost; infer_instance

instance (a b : RoutingCost) : Decidable (leCost a b) := by
  unfold leCost; infer_instance

/-- Penalty constructor (`RoutingCost::with_penalty`): adds only to
`cost_millis`. -/
def RoutingCost.with_penalty (c : RoutingCost) (penalty_millis : Nat) : RoutingCost :=
  { cost_millis := satAdd64 c.cost_millis penalty_millis
    actual_millis := c.actual_millis
    distance_mm := c.distance_mm }

/-- Additional-travel constructor (`RoutingCost::with_additional`): adds the
extra time to both time components and the extra distance to the distance. -/
def RoutingCost.with_additional (c : RoutingCost) (actual_millis distance_mm : Nat) :
    RoutingCost :=
  { cost_millis := satAdd64 c.cost_millis actual_millis
    actual_millis := satAdd64 c.actual_millis actual_millis
    distance_mm := satAdd64 c.distance_mm distance_mm }

/-- Per-way costing summary from `costing/mod.rs` (`WayCoster`): optional
directional speeds (µm/ms, u32) and ppm penalties (u32). -/
structure WayCoster where
  speed_forward : Option Nat
  speed_reverse : Option Nat
  penalty_ppm_forward : Option Nat
  penalty_ppm_reverse : Option Nat
deriving DecidableEq, Repr

/-- The impassable way coster (`WayCoster::impassable`). -/
def WayCoster.impassable : WayCoster :=
  { speed_forward := none, speed_reverse := none
    penalty_ppm_forward := none, penalty_ppm_reverse := none }

/-- Constructor from optional speeds and penalties (`WayCoster::from_speeds`). -/
def WayCoster.from_speeds (sf sr pf pr : Option Nat) : WayCoster :=
  { speed_forward := sf, speed_reverse := sr
    penalty_ppm_forward := pf, penalty_ppm_reverse := pr }

/-- Directional speed selection (`WayCoster::estimate_speed`). -/
def WayCoster.estimate_speed (wc : WayCoster) (dir : Direction) : Option Nat :=
  match dir with
  | .forward => wc.speed_forward
  | .reverse => wc.speed_reverse

/-- Travel-time estimate (`WayCoster::estimate_time_ms`): distance divided by
the directional speed, `none` when the speed is absent or division fails. -/
def WayCoster.estimate_time_ms (wc : WayCoster) (distance : Nat) (dir : Direction) :
    Option Nat :=
  match wc.estimate_speed dir with
  | none => none
  | some s => divSpeed distance s

/-- Segment costing (`WayCoster::cost_way_segment`): cost time is travel time
plus the ppm penalty surcharge (saturating), actual time is the travel time,
distance is the traversed distance. -/
def WayCoster.cost_way_segment (wc : WayCoster) (distance : Nat) (dir : Direction) :
    Option RoutingCost :=
  let penalty_ppm :=
    match dir with
    | .forward => wc.penalty_ppm_forward.getD 0
    | .reverse => wc.penalty_ppm_reverse.getD 0
  match wc.estimate_time_ms distance dir with
  | none => none
  | some travel_time_ms =>
      some
        { cost_millis := satAdd64 travel_time_ms (mulPpm travel_time_ms penalty_ppm)
          actual_millis := travel_time_ms
          distance_mm := distance }

/-- A routing cost is a well-formed u64 triple when each component fits in
u64. -/
def RoutingCost.wf (c : RoutingCost) : Prop :=
  c.cost_millis ≤ U64MAX ∧ c.actual_millis ≤ U64MAX ∧ c.distance_mm ≤ U64MAX

instance (c : RoutingCost) : Decidable c.wf := by
  unfold RoutingCost.wf; infer_instance

/-- The cost-dominates-actual invariant on a routing cost. -/
def RoutingCost.inv (c : RoutingCost) : Prop := c.actual_millis ≤ c.cost_millis

instance (c : RoutingCost) : Decidable c.inv := by
  unfold RoutingCost.inv; infer_instance

theorem divSpeed_le_u64max {d s t : Nat} (h : divSpeed d s = some t) : t ≤ U64MAX := by
  unfold divSpeed at h
  by_cases h1 : s = 0
  · simp [h1] at h
  · by_cases h2 : 2 ^ 64 ≤ d * 1000
    · simp [h1, h2] at h
      exact absurd h.1 (by omega)
    · simp [h1, h2] at h
      obtain ⟨ha, hb⟩ := h
      subst hb
      have hm : (d * 1000) % 18446744073709551616 < 18446744073709551616 :=
        Nat.mod_lt _ (by norm_num)
      have hd := Nat.div_le_self ((d * 1000) % 18446744073709551616) s
      unfold U64MAX
      norm_num
      omega

/-- C5: the invariant `cost_time ≥ actual_time` holds for `zero()`, is
preserved by `with_penalty`, `with_additional` and addition, and holds for
every `some` result of `WayCoster::cost_way_segment`. -/
theorem routing_cost_invariant_preserved :
    RoutingCost.inv RoutingCost.zero
    ∧ (∀ c : RoutingCost, ∀ p : Nat, c.wf → c.inv → (c.with_penalty p).inv)
    ∧ (∀ c : RoutingCost, ∀ t d : Nat, c.inv → (c.with_additional t d).inv)
    ∧ (∀ a b : RoutingCost, a.inv → b.inv → (a.add b).inv)
    ∧ (∀ wc : WayCoster, ∀ dist : Nat, ∀ dir : Direction, ∀ r : RoutingCost,
        wc.cost_way_segment dist dir = some r → r.inv) := by
  refine ⟨by decide, ?_, ?_, ?_, ?_⟩
  · intro c p hwf hinv
    unfold RoutingCost.inv RoutingCost.with_penalty satAdd64 at *
    rcases hwf with ⟨h1, h2, h3⟩
    simp only at *
    omega
  · intro c t d hinv
    unfold RoutingCost.inv RoutingCost.with_additional satAdd64 at *
    simp only at *
    omega
  · intro a b ha hb
    unfold RoutingCost.inv RoutingCost.add satAdd64 at *
    simp only at *
    omega
  · intro wc dist dir r hr
    unfold WayCoster.cost_way_segment at hr
    simp only at hr
    rcases h : wc.estimate_time_ms dist dir with _ | t
    · rw [h] at hr; simp at hr
    · rw [h] at hr
      simp only [Option.some.injEq] at hr
      subst hr
      have ht : t ≤ U64MAX := by
        unfold WayCoster.estimate_time_ms at h
        rcases hs : wc.estimate_speed dir with _ | s
        · rw [hs] at h; simp at h
        · rw [hs] at h
          exact divSpeed_le_u64max h
      unfold RoutingCost.inv satAdd64
      simp only
      omega

/-- C5 witness: the invariant facts instantiated at concrete inputs. -/
theorem routing_cost_invariant_preserved_witness :
    (RoutingCost.mk 7 3 5).inv
    ∧ ((RoutingCost.mk 7 3 5).with_penalty 11).inv
    ∧ ((RoutingCost.mk 7 3 5).with_additional 2 9).inv
    ∧ ((RoutingCost.mk 7 3 5).add (RoutingCost.mk 4 4 4)).inv := by
  have h := routing_cost_invariant_preserved
  exact ⟨by decide,
    h.2.1 (RoutingCost.mk 7 3 5) 11 (by decide) (by decide),
    h.2.2.1 (RoutingCost.mk 7 3 5) 2 9 (by decide),
    h.2.2.2.1 (RoutingCost.mk 7 3 5) (RoutingCost.mk 4 4 4) (by decide) (by decide)⟩

theorem cmpCost_not_gt_iff {a b : RoutingCost} :
    cmpCost a b ≠ .gt ↔
      (a.cost_millis < b.cost_millis
        ∨ (a.cost_millis = b.cost_millis
            ∧ (a.actual_millis < b.actual_millis
                ∨ (a.actual_millis = b.actual_millis ∧ a.distance_mm ≤ b.distance_mm)))) := by
  unfold cmpCost
  split_ifs <;> simp_all <;> omega

/-- C6: for well-formed (u64-ranged) routing costs `a` and `b`,
`a + b ≥ a` and `a + b ≥ b` under the lexicographic order, where addition is
component-wise saturating. -/
theorem routing_cost_add_ge (a b : RoutingCost) (ha : a.wf) (hb : b.wf) :
    leCost a (a.add b) ∧ leCost b (a.add b) := by
  rcases ha with ⟨ha1, ha2, ha3⟩
  rcases hb with ⟨hb1, hb2, hb3⟩
  unfold leCost
  rw [cmpCost_not_gt_iff, cmpCost_not_gt_iff]
  unfold RoutingCost.add satAdd64
  simp only
  constructor
  · rcases Nat.lt_or_ge a.cost_millis (min (a.cost_millis + b.cost_millis) U64MAX) with h | h
    · exact Or.inl h
    · refine Or.inr ⟨by omega, ?_⟩
      rcases Nat.lt_or_ge a.actual_millis (min (a.actual_millis + b.actual_millis) U64MAX)
        with h2 | h2
      · exact Or.inl h2
      · exact Or.inr ⟨by omega, by omega⟩
  · rcases Nat.lt_or_ge b.cost_millis (min (a.cost_millis + b.cost_millis) U64MAX) with h | h
    · exact Or.inl h
    · refine Or.inr ⟨by omega, ?_⟩
      rcases Nat.lt_or_ge b.actual_millis (min (a.actual_millis + b.actual_millis) U64MAX)
        with h2 | h2
      · exact Or.inl h2
      · exact Or.inr ⟨by omega, by omega⟩

/-- C6 witness: the addition dominance facts at a concrete pair of costs. -/
theorem routing_cost_add_ge_witness :
    leCost (RoutingCost.mk 3 2 1) ((RoutingCost.mk 3 2 1).add (RoutingCost.mk 10 9 8))
    ∧ leCost (RoutingCost.mk 10 9 8) ((RoutingCost.mk 3 2 1).add (RoutingCost.mk 10 9 8)) :=
  routing_cost_add_ge (RoutingCost.mk 3 2 1) (RoutingCost.mk 10 9 8) (by decide) (by decide)

/-- C7: `TravelledDistance / TravelSpeed` returns `none` exactly when the
speed is zero or `mm * 1000` overflows u64, and otherwise returns
`some ((mm * 1000) / speed)`; being a total Lean function it never panics. -/
theorem div_speed_spec (d s : Nat) :
    (divSpeed d s = none ↔ (s = 0 ∨ 2 ^ 64 ≤ d * 1000))
    ∧ (s ≠ 0 → d * 1000 < 2 ^ 64 → divSpeed d s = some (d * 1000 / s)) := by
  constructor
  · unfold divSpeed
    split_ifs <;> simp_all
  · intro hs hov
    unfold divSpeed
    rw [if_neg hs, if_neg (by omega)]
    rw [Nat.mod_eq_of_lt hov]

/-- C7 witness: the division characterisation at concrete inputs (a normal
division, a zero-speed input and an overflowing input). -/
theorem div_speed_spec_witness :
    divSpeed 7000 2 = some 3500000
    ∧ divSpeed 7000 0 = none
    ∧ divSpeed (2 ^ 60) 5 = none := by
  refine ⟨?_, ?_, ?_⟩
  · have h := (div_speed_spec 7000 2).2 (by decide) (by norm_num)
    simpa using h
  · exact (div_speed_spec 7000 0).1.mpr (Or.inl rfl)
  · exact (div_speed_spec (2 ^ 60) 5).1.mpr (Or.inr (by norm_num))

/-- C8: `ElapsedTime * PartsPerMillion` equals `(ms * ppm) / 1000000` when the
u64 product does not overflow, and equals zero elapsed time on overflow. -/
theorem mul_ppm_spec (t p : Nat) :
    (t * p < 2 ^ 64 → mulPpm t p = t * p / 1000000)
    ∧ (2 ^ 64 ≤ t * p → mulPpm t p = 0) := by
  constructor
  · intro h
    unfold mulPpm
    rw [if_neg (by omega), Nat.mod_eq_of_lt h]
  · intro h
    unfold mulPpm
    rw [if_pos h]

/-- C8 witness: the ppm multiplication at a concrete non-overflowing input and
a concrete overflowing input. -/
theorem mul_ppm_spec_witness :
    mulPpm 30000000 200000 = 6000000 ∧ mulPpm (2 ^ 63) 4 = 0 := by
  constructor
  · have h := (mul_ppm_spec 30000000 200000).1 (by norm_num)
    simpa using h
  · exact (mul_ppm_spec (2 ^ 63) 4).2 (by norm_num)

/-! ## Graph data model (`graph.rs`) -/

/-- Way identifiers (`WayId`, a u64). -/
abbrev WayId := Nat

/-- A routable position: a way plus a distance along it in mm (i32), from
`graph.rs` (`SearchNode`). -/
structure SearchNode where
  way : WayId
  distance_along_way_mm : Int
deriving DecidableEq, Repr

/-- Lexicographic comparison on search nodes (way, then distance), matching
the derived `Ord` on `SearchNode`. -/
def cmpNode (a b : SearchNode) : Ordering :=
  if a.way < b.way then .lt
  else if b.way < a.way then .gt
  else if a.distance_along_way_mm < b.distance_along_way_mm then .lt
  else if b.distance_along_way_mm < a.distance_along_way_mm then .gt
  else .eq

/-- Strict order on search nodes. -/
def ltNode (a b : SearchNode) : Prop := cmpNode a b = .lt

/-- Non-strict order on search nodes. -/
def leNode (a b : SearchNode) : Prop := cmpNode a b ≠ .gt

instance (a b : SearchNode) : Decidable (ltNode a b) := by
  unfold ltNode; infer_instance

instance (a b : SearchNode) : Decidable (leNode a b) := by
  unfold leNode; infer_instance

/-- A directed transition between positions on two ways (`WayTransition`). -/
structure WayTransition where
  from_way_id : WayId
  distance_along_way_mm : Int
  to_way_id : WayId
  transition_to_distance_along_way_mm : Int
deriving DecidableEq, Repr

/-- A transition target annotated with its routing cost
(`CostedWayTransition`). -/
structure CostedWayTransition where
  to_way_id : WayId
  cost : RoutingCost
deriving DecidableEq, Repr

/-- A local coordinate inside a specific tile (`TileCoordinates`). -/
structure TileCoordinates where
  x : Nat
  y : Nat
  z : Nat
  extent : Nat
  tile_x : Int
  tile_y : Int
deriving DecidableEq, Repr

/-- One entry of the Dijkstra predecessor log (`SearchState`). -/
structure SearchState where
  previous : Nat
  idx : Nat
  node : SearchNode
  via : SearchNode
  cost : RoutingCost
deriving DecidableEq, Repr

/-- Frontier ordering on search states, from the manual `PartialOrd` on
`SearchState`: reversed cost order first (so the heap maximum is the cheapest
state), then search-node order as tie-break. -/
def cmpState (a b : SearchState) : Ordering :=
  match cmpCost a.cost b.cost with
  | .eq => cmpNode a.node b.node
  | o => o.swap

/-- The four read-side maps of the routing graph, each modelled as the list of
`(key, value)` pairs inserted into the corresponding `evmap` (a key may carry
several values; insertion appends). -/
structure Graph where
  nodes : List (WayId × SearchNode)
  transitions : List (SearchNode × (CostedWayTransition × WayTransition))
  ways : List (WayId × WayCoster)
  geometry : List (WayId × List TileCoordinates)
deriving DecidableEq, Repr

/-- A freshly created graph (`Graph::new`): all four maps empty. -/
def Graph.new : Graph := { nodes := [], transitions := [], ways := [], geometry := [] }

/-- All values stored under a key (`evmap::ReadHandle::get`). -/
def assocAll {κ α : Type} [DecidableEq κ] (m : List (κ × α)) (k : κ) : List α :=
  (m.filter (fun p => decide (p.1 = k))).map (fun p => p.2)

/-- One value stored under a key (`evmap::ReadHandle::get_one`). -/
def assocOne {κ α : Type} [DecidableEq κ] (m : List (κ × α)) (k : κ) : Option α :=
  (assocAll m k).head?

/-! ## Wrapping i32/u64 helpers (release-build semantics) -/

/-- Wrapping i32 interpretation of an integer (`i32` subtraction wraps in a
release build). -/
def wrap32 (x : Int) : Int := (x + 2 ^ 31) % 2 ^ 32 - 2 ^ 31

/-- `i32::saturating_abs` followed by the infallible cast to u64. -/
def satAbs32 (x : Int) : Nat := if x = -(2 ^ 31) then 2 ^ 31 - 1 else x.natAbs

/-- `i32::abs` (wrapping at `i32::MIN` in a release build) followed by
`as u64`. -/
def abs32u64 (x : Int) : Nat := if x = -(2 ^ 31) then 2 ^ 64 - 2 ^ 31 else x.natAbs

/-- Wrapping u64 subtraction (release-build `u64` subtraction). -/
def subWrap64 (a b : Nat) : Nat := (((a : Int) - (b : Int)) % 2 ^ 64).toNat

/-! ## Path reconstruction (`Graph::unwind_route`) -/

/-- The raw predecessor chain: follow `previous` links from `cursor`, stopping
at a root state (`previous == idx`) or when the index falls outside the log;
`fuel` bounds the number of steps taken. -/
def followLinks (log : List SearchState) : Nat → Nat → List SearchState
  | _, 0 => []
  | cursor, fuel + 1 =>
    match log[cursor]? with
    | none => []
    | some step =>
        if step.previous = step.idx then [step]
        else step :: followLinks log step.previous fuel

/-- The unwinding loop of `Graph::unwind_route`: `acc` doubles as the
`cycle_detector` set and the `steps_reversed` vector (the source pushes into
both in lockstep); a revisited state aborts with the empty route, running out
of fuel yields `none`. -/
def unwindLoop (log : List SearchState) : List SearchState → Nat → Nat → Option (List SearchState)
  | _, _, 0 => none
  | acc, cursor, fuel + 1 =>
    match log[cursor]? with
    | none => some acc
    | some step =>
        if step ∈ acc then some []
        else if step.previous = step.idx then some (acc ++ [step])
        else unwindLoop log (acc ++ [step]) step.previous fuel

/-- The `assert_eq!` at the end of `Graph::unwind_route`: for each adjacent
pair of steps, the absolute distance between the first step's node and the
second step's `via` must equal the difference of their logged cost
distances. -/
def windowsOk : List SearchState → Bool
  | a :: b :: rest =>
      (abs32u64 (wrap32 (a.node.distance_along_way_mm - b.via.distance_along_way_mm))
          == subWrap64 b.cost.distance_mm a.cost.distance_mm)
        && windowsOk (b :: rest)
  | _ => true

/-- `Graph::unwind_route`: unwind the predecessor chain, reverse it, and check
the distance assertion; `none` models a panic (the assertion failing), which
the loop-termination theorem shows is the only way the fuel path can yield
`none`. -/
def unwind_route (log : List SearchState) (end_step : Nat) : Option (List SearchState) :=
  match unwindLoop log [] end_step (log.length + 1) with
  | none => none
  | some steps_reversed =>
      let steps := steps_reversed.reverse
      if windowsOk steps then some steps else none

/-! ## Dijkstra search (`Graph::search_djikstra_inner`) -/

/-- Pop the greatest element of the frontier under the `SearchState` ordering,
modelling `BinaryHeap::pop` (the comparator reverses costs, so the greatest
element is the cheapest state, ties broken by node order). -/
def popMax : List SearchState → Option (SearchState × List SearchState)
  | [] => none
  | s :: rest =>
    match popMax rest with
    | none => some (s, [])
    | some (m, others) =>
        if cmpState s m = .lt then some (m, s :: others) else some (s, others)

/-- The best-known-cost map `best_cost_by_node` as an association list. -/
abbrev CostMap := List (SearchNode × RoutingCost)

/-- First-match association lookup (`HashMap::get`). -/
def lookupAssoc {κ α : Type} [DecidableEq κ] : List (κ × α) → κ → Option α
  | [], _ => none
  | p :: rest, k => if p.1 = k then some p.2 else lookupAssoc rest k

/-- In-place update of the first matching entry (`*best_cost_this_node = ..`). -/
def updateAssoc {κ α : Type} [DecidableEq κ] : List (κ × α) → κ → α → List (κ × α)
  | [], _, _ => []
  | p :: rest, k, v => if p.1 = k then (k, v) :: rest else p :: updateAssoc rest k v

/-- Relaxation of one candidate successor state, from the loop body of
`Graph::process_transition_set`: push onto the frontier, update the best-cost
map and append to the step log exactly when the candidate's cost strictly
beats the recorded best or no best is recorded. -/
def relax_candidate (frontier : List SearchState) (costs : CostMap)
    (step_log : List SearchState) (new_state : SearchState) :
    List SearchState × CostMap × List SearchState :=
  match lookupAssoc costs new_state.node with
  | some best_cost_this_node =>
      if ltCost new_state.cost best_cost_this_node then
        (new_state :: frontier, updateAssoc costs new_state.node new_state.cost,
          step_log ++ [new_state])
      else
        (frontier, costs, step_log)
  | none =>
      (new_state :: frontier, costs ++ [(new_state.node, new_state.cost)],
        step_log ++ [new_state])

/-- One group of costed transitions sharing a source search node. -/
abbrev TransGroup := List (CostedWayTransition × WayTransition)

/-- `Graph::process_transition_set`: cost the segment of the current way from
the popped state to `via` (skipping the group when the segment is impassable)
and relax every transition in the group; the `.expect` on the missing way
coster is modelled as an error. -/
def process_transition_set (g : Graph) (costed_transitions : TransGroup)
    (via : SearchNode) (state : SearchState) (frontier : List SearchState)
    (costs : CostMap) (step_log : List SearchState) :
    Except String (List SearchState × CostMap × List SearchState) :=
  let distance := satAbs32 (wrap32
    (state.node.distance_along_way_mm - via.distance_along_way_mm))
  let direction :=
    if state.node.distance_along_way_mm < via.distance_along_way_mm then Direction.forward
    else Direction.reverse
  match assocOne g.ways state.node.way with
  | none => .error "Costing for way not available."
  | some coster =>
    match coster.cost_way_segment distance direction with
    | none => .ok (frontier, costs, step_log)
    | some segment_cost =>
        let new_cost := state.cost.add segment_cost
        .ok (costed_transitions.foldl
          (fun acc ct =>
            let costed := ct.1
            let transition := ct.2
            let new_node : SearchNode :=
              { way := transition.to_way_id
                distance_along_way_mm := transition.transition_to_distance_along_way_mm }
            let new_state : SearchState :=
              { previous := state.idx
                idx := acc.2.2.length
                node := new_node
                via := via
                cost := new_cost.add costed.cost }
            relax_candidate acc.1 acc.2.1 acc.2.2 new_state)
          (frontier, costs, step_log))

/-- Insertion into a sorted node list, used to model `BTreeMap` key order. -/
def insertNodeSorted (x : SearchNode) : List SearchNode → List SearchNode
  | [] => [x]
  | y :: ys => if ltNode x y then x :: y :: ys else y :: insertNodeSorted x ys

/-- The distinct search nodes of a way in ascending order: the `HashSet`
deduplication followed by the `BTreeMap` ordering of `transition_groups`. -/
def sortNodes (l : List SearchNode) : List SearchNode :=
  l.dedup.foldr insertNodeSorted []

/-- The transition groups of a way, keyed by source node in ascending order. -/
abbrev GroupList := List (SearchNode × TransGroup)

/-- The identity group: the entry whose key is the popped node itself
(`.filter(|(node, _)| node == state.node).next()`). -/
def selectIdentityGroup (groups : GroupList) (x : SearchNode) :
    Option (SearchNode × TransGroup) :=
  (groups.filter (fun p => decide (p.1 = x))).head?

/-- The first group strictly after the popped node
(`.filter(|(node, _)| node > state.node).next()`). -/
def selectGroupAfter (groups : GroupList) (x : SearchNode) :
    Option (SearchNode × TransGroup) :=
  (groups.filter (fun p => decide (ltNode x p.1))).head?

/-- The last group strictly before the popped node
(`.filter(|(node, _)| node < state.node).last()`). -/
def selectGroupBefore (groups : GroupList) (x : SearchNode) :
    Option (SearchNode × TransGroup) :=
  (groups.filter (fun p => decide (ltNode p.1 x))).getLast?

/-- The `while let Some(state) = frontier.pop()` loop of
`Graph::search_djikstra_inner`, with explicit fuel; `.ok none` is frontier
exhaustion (no route), `.error` models a panic or exhausted fuel. -/
def searchLoop (g : Graph) (endWay : WayId) (distance_along_end_mm : Int) :
    List SearchState → CostMap → List SearchState → Nat →
    Except String (Option (List SearchState))
  | _, _, _, 0 => .error "search fuel exhausted"
  | frontier, costs, step_log, fuel + 1 =>
    match popMax frontier with
    | none => .ok none
    | some (state, rest) =>
        if state.node.way = endWay ∧ state.node.distance_along_way_mm = distance_along_end_mm
        then
          match unwind_route step_log state.idx with
          | none => .error "route unwinding assertion failed"
          | some steps => .ok (some steps)
        else
          let all_nodes := sortNodes (assocAll g.nodes state.node.way)
          let transition_groups : GroupList :=
            all_nodes.map (fun n => (n, assocAll g.transitions n))
          do
            let r1 ←
              match selectIdentityGroup transition_groups state.node with
              | none => Except.ok (rest, costs, step_log)
              | some p => process_transition_set g p.2 p.1 state rest costs step_log
            let r2 ←
              match selectGroupAfter transition_groups state.node with
              | none => Except.ok r1
              | some p => process_transition_set g p.2 p.1 state r1.1 r1.2.1 r1.2.2
            let r3 ←
              match selectGroupBefore transition_groups state.node with
              | none => Except.ok r2
              | some p => process_transition_set g p.2 p.1 state r2.1 r2.2.1 r2.2.2
            searchLoop g endWay distance_along_end_mm r3.1 r3.2.1 r3.2.2 fuel

/-- `Graph::search_djikstra_inner`: seed the frontier, best-cost map and step
log with the start state and run the search loop. -/
def search_djikstra_inner (g : Graph) (start : WayId) (distance_along_start_mm : Int)
    (endWay : WayId) (distance_along_end_mm : Int) (fuel : Nat) :
    Except String (Option (List SearchState)) :=
  let first_node : SearchNode := { way := start, distance_along_way_mm := distance_along_start_mm }
  let first_state : SearchState :=
    { previous := 0, idx := 0, node := first_node, via := first_node, cost := RoutingCost.zero }
  searchLoop g endWay distance_along_end_mm [first_state] [] [first_state] fuel

/-! ## Route geometry and the outer search (`Graph::search_djikstra`)

The haversine interpolation and point-location primitives come from the
external `geo` crate (declared out of scope by the specification) and the
Web-Mercator tile-to-WGS84 conversion uses floating-point trigonometry, so
they are abstracted as an explicit parameter; geographic points are pairs
`(lon, lat)` of rationals. -/

/-- A geographic point `(x = lon, y = lat)`. -/
abbrev GeoPoint := Rat × Rat

/-- External geometry collaborators: `TileCoordinates::to_lat_lng`,
`Haversine::point_at_distance_from_start` and `line_locate_point`. -/
structure GeoOps where
  toLatLng : TileCoordinates → GeoPoint
  pointAtDistance : List GeoPoint → Rat → Option GeoPoint
  lineLocate : List GeoPoint → GeoPoint → Option Rat

/-- `Graph::get_polyline`: the stored tile-coordinate polyline of a way,
converted to geographic points. -/
def get_polyline (g : Graph) (ops : GeoOps) (way : WayId) : Option (List GeoPoint) :=
  (assocOne g.geometry way).map (fun coords => coords.map ops.toLatLng)

/-- Modelled from the spec: rounding of a scaled coordinate in the polyline5
encoder (the `polyline` crate is an external collaborator; `f64::round` rounds
half away from zero). -/
def roundRat (q : Rat) : Int :=
  if q < 0 then -(⌊-q + 1 / 2⌋) else ⌊q + 1 / 2⌋

/-- Modelled from the spec: zigzag transform of the Google polyline
algorithm. -/
def zigzag (n : Int) : Nat :=
  if n < 0 then (2 * (-n) - 1).toNat else (2 * n).toNat

/-- Modelled from the spec: emit the 5-bit little-endian chunks of a zigzagged
value, each offset by 63, continuation chunks additionally marked with
bit 0x20. -/
def encChunks (v : Nat) : List Char :=
  if h : v < 32 then [Char.ofNat (v + 63)]
  else Char.ofNat (v % 32 + 32 + 63) :: encChunks (v / 32)
termination_by v
decreasing_by
  exact Nat.div_lt_self (by omega) (by omega)

/-- Modelled from the spec: polyline5 delta encoding of a point list, latitude
first, starting from a previous scaled position of `(0, 0)`. -/
def encodePolylineAux : List GeoPoint → Int → Int → String
  | [], _, _ => ""
  | p :: rest, plat, plng =>
      let lat := roundRat (p.2 * 100000)
      let lng := roundRat (p.1 * 100000)
      String.mk (encChunks (zigzag (lat - plat)))
        ++ String.mk (encChunks (zigzag (lng - plng)))
        ++ encodePolylineAux rest lat lng

/-- Modelled from the spec: `polyline::encode_coordinates` at precision 5 (the
encoder of the external `polyline` crate); the empty point list encodes to the
empty string. -/
def encode_coordinates (points : List GeoPoint) : String :=
  encodePolylineAux points 0 0

/-- A completed route (`SearchResult`). -/
structure SearchResult where
  encoded_polyline : String
  cost : RoutingCost
deriving DecidableEq, Repr

/-- The geometry loop of `Graph::search_djikstra` over `states.windows(2)`:
missing way geometry aborts with no route (the `?` operator); a failed
interpolation or point location is a panic, modelled as an error. -/
def routeWindows (g : Graph) (ops : GeoOps) :
    List SearchState → List GeoPoint → Except String (Option (List GeoPoint))
  | w0 :: w1 :: rest, route_polyline =>
    match get_polyline g ops w0.node.way with
    | none => .ok none
    | some node_linestring =>
      match ops.pointAtDistance node_linestring
          ((w0.node.distance_along_way_mm : Rat) / 1000) with
      | none => .error "Failed to interpolate along way polyline."
      | some start_point =>
        match ops.pointAtDistance node_linestring
            ((w1.via.distance_along_way_mm : Rat) / 1000) with
        | none => .error "Failed to interpolate along way polyline."
        | some end_point =>
          match ops.lineLocate node_linestring start_point with
          | none => .error "line_locate_point returned none"
          | some line_fraction_1 =>
            match ops.lineLocate node_linestring end_point with
            | none => .error "line_locate_point returned none"
            | some line_fraction_2 =>
              let start_line_fraction := min line_fraction_1 line_fraction_2
              let end_line_fraction := max line_fraction_1 line_fraction_2
              match node_linestring.mapM (fun pt =>
                  match ops.lineLocate node_linestring pt with
                  | none => Except.error "line_locate_point returned none"
                  | some f => Except.ok (pt, f)) with
              | .error e => .error e
              | .ok located =>
                  let middle_base :=
                    ((located.dropWhile (fun pf => decide (pf.2 < start_line_fraction))).takeWhile
                        (fun pf => decide (pf.2 < end_line_fraction))).map (fun pf => pf.1)
                  let middle_points :=
                    if line_fraction_2 < line_fraction_1 then middle_base.reverse
                    else middle_base
                  let r1 :=
                    if route_polyline.getLast? ≠ some start_point then
                      route_polyline ++ [start_point]
                    else route_polyline
                  let r2 := r1 ++ middle_points
                  let r3 :=
                    if r2.getLast? ≠ some end_point then r2 ++ [end_point] else r2
                  routeWindows g ops (w1 :: rest) r3
  | _, route_polyline => .ok (some route_polyline)

/-- `Graph::search_djikstra`: run the inner search, then reconstruct and
encode the route polyline; the cost reported is the terminating state's. -/
def search_djikstra (g : Graph) (ops : GeoOps) (start : WayId)
    (distance_along_start_mm : Int) (endWay : WayId) (distance_along_end_mm : Int)
    (fuel : Nat) : Except String (Option SearchResult) :=
  match search_djikstra_inner g start distance_along_start_mm endWay
      distance_along_end_mm fuel with
  | .error e => .error e
  | .ok none => .ok none
  | .ok (some states) =>
    match states.getLast? with
    | none => .ok none
    | some last_state =>
      match routeWindows g ops states [] with
      | .error e => .error e
      | .ok none => .ok none
      | .ok (some route_polyline) =>
          .ok (some { encoded_polyline := encode_coordinates route_polyline
                      cost := last_state.cost })

/-- C10: searching from a position to itself succeeds on every graph,
including the empty one, returning zero routing cost and the empty encoded
polyline rather than no route. -/
theorem search_start_equals_end (g : Graph) (ops : GeoOps) (w : WayId) (d : Int)
    (fuel : Nat) (hf : 1 ≤ fuel) :
    search_djikstra g ops w d w d fuel =
      .ok (some { encoded_polyline := "", cost := RoutingCost.zero }) := by
  obtain ⟨k, rfl⟩ : ∃ k, fuel = k + 1 := ⟨fuel - 1, by omega⟩
  unfold search_djikstra search_djikstra_inner searchLoop
  simp [popMax, unwind_route, unwindLoop, windowsOk, routeWindows, encode_coordinates,
    encodePolylineAux]

/-- Trivial geometry collaborators, used only to instantiate theorems. -/
def trivialGeoOps : GeoOps :=
  { toLatLng := fun _ => (0, 0)
    pointAtDistance := fun _ _ => none
    lineLocate := fun _ _ => none }

/-- C10 witness: the start-equals-end search on the empty graph at way 5,
distance 7 mm, with one unit of fuel. -/
theorem search_start_equals_end_witness :
    search_djikstra Graph.new trivialGeoOps 5 7 5 7 1 =
      .ok (some { encoded_polyline := "", cost := RoutingCost.zero }) :=
  search_start_equals_end Graph.new trivialGeoOps 5 7 1 (by decide)

theorem lookupAssoc_updateAssoc_ne {κ α : Type} [DecidableEq κ]
    (m : List (κ × α)) (k : κ) (v : α) (k' : κ) (h : k' ≠ k) :
    lookupAssoc (updateAssoc m k v) k' = lookupAssoc m k' := by
  induction m with
  | nil => rfl
  | cons p rest ih =>
    by_cases hp : p.1 = k
    · simp [updateAssoc, lookupAssoc, hp, Ne.symm h]
    · by_cases hp' : p.1 = k'
      · simp [updateAssoc, lookupAssoc, hp, hp', h]
      · simp [updateAssoc, lookupAssoc, hp, hp', ih]

theorem lookupAssoc_updateAssoc_self {κ α : Type} [DecidableEq κ]
    (m : List (κ × α)) (k : κ) (v : α) (b : α) (h : lookupAssoc m k = some b) :
    lookupAssoc (updateAssoc m k v) k = some v := by
  induction m with
  | nil => simp [lookupAssoc] at h
  | cons p rest ih =>
    by_cases hp : p.1 = k
    · simp [updateAssoc, lookupAssoc, hp]
    · simp only [lookupAssoc, hp, if_false, if_neg hp] at h
      simp [updateAssoc, lookupAssoc, hp, ih h]

theorem lookupAssoc_append_self {κ α : Type} [DecidableEq κ]
    (m : List (κ × α)) (k : κ) (v : α) (h : lookupAssoc m k = none) :
    lookupAssoc (m ++ [(k, v)]) k = some v := by
  induction m with
  | nil => simp [lookupAssoc]
  | cons p rest ih =>
    by_cases hp : p.1 = k
    · simp only [lookupAssoc, if_pos hp] at h
      cases h
    · simp only [lookupAssoc, if_neg hp] at h
      simp only [List.cons_append, lookupAssoc, if_neg hp]
      exact ih h

/-- C4: during relaxation a candidate is pushed onto the frontier, recorded in
the best-cost map, and appended to the step log exactly when its cost strictly
beats the recorded best for its node or no best is recorded; in particular a
candidate whose cost equals the recorded best leaves everything unchanged. -/
theorem dijkstra_relaxation_condition (frontier : List SearchState) (costs : CostMap)
    (step_log : List SearchState) (ns : SearchState) :
    ((relax_candidate frontier costs step_log ns).2.2 = step_log ++ [ns]
        ∧ (relax_candidate frontier costs step_log ns).1 = ns :: frontier
        ∧ lookupAssoc (relax_candidate frontier costs step_log ns).2.1 ns.node = some ns.cost
      ∨ relax_candidate frontier costs step_log ns = (frontier, costs, step_log))
    ∧ ((relax_candidate frontier costs step_log ns).2.2 = step_log ++ [ns]
        ↔ lookupAssoc costs ns.node = none
          ∨ ∃ b, lookupAssoc costs ns.node = some b ∧ ltCost ns.cost b)
    ∧ (lookupAssoc costs ns.node = some ns.cost →
        relax_candidate frontier costs step_log ns = (frontier, costs, step_log)) := by
  have hne : step_log ++ [ns] ≠ step_log := by
    intro h
    have := congrArg List.length h
    simp at this
  have hirr : ¬ ltCost ns.cost ns.cost := by
    unfold ltCost cmpCost
    split_ifs <;> simp_all
  rcases hl : lookupAssoc costs ns.node with _ | best
  · have hr : relax_candidate frontier costs step_log ns
        = (ns :: frontier, costs ++ [(ns.node, ns.cost)], step_log ++ [ns]) := by
      unfold relax_candidate
      rw [hl]
    rw [hr]
    refine ⟨Or.inl ⟨rfl, rfl, lookupAssoc_append_self costs ns.node ns.cost hl⟩,
      ⟨fun _ => Or.inl rfl, fun _ => rfl⟩, ?_⟩
    intro h
    simp at h
  · by_cases hlt : ltCost ns.cost best
    · have hr : relax_candidate frontier costs step_log ns
          = (ns :: frontier, updateAssoc costs ns.node ns.cost, step_log ++ [ns]) := by
        unfold relax_candidate
        rw [hl]
        exact if_pos hlt
      rw [hr]
      refine ⟨Or.inl ⟨rfl, rfl,
        lookupAssoc_updateAssoc_self costs ns.node ns.cost best hl⟩,
        ⟨fun _ => Or.inr ⟨best, rfl, hlt⟩, fun _ => rfl⟩, ?_⟩
      intro h
      injection h with h
      rw [h] at hlt
      exact absurd hlt hirr
    · have hr : relax_candidate frontier costs step_log ns = (frontier, costs, step_log) := by
        unfold relax_candidate
        rw [hl]
        exact if_neg hlt
      rw [hr]
      refine ⟨Or.inr rfl, ⟨fun h => absurd h.symm hne, ?_⟩, fun _ => rfl⟩
      rintro (h | ⟨b, hb, hbl⟩)
      · cases h
      · injection hb with hb
        rw [hb] at hlt
        exact absurd hbl hlt

theorem cmpNode_self (a : SearchNode) : cmpNode a a = .eq := by
  simp [cmpNode]

theorem leNode_refl (a : SearchNode) : leNode a a := by
  unfold leNode
  rw [cmpNode_self]
  simp

theorem ltNode_leNode {a b : SearchNode} (h : ltNode a b) : leNode a b := by
  unfold leNode
  unfold ltNode at h
  rw [h]
  simp

theorem head_filter_spec {α : Type} {r : α → α → Prop} {P : α → Bool} {l : List α}
    (hs : l.Pairwise r) {a : α} (h : (l.filter P).head? = some a) :
    a ∈ l ∧ P a = true ∧ ∀ b ∈ l, P b = true → b = a ∨ r a b := by
  have hpf : (l.filter P).Pairwise r := hs.sublist (List.filter_sublist l)
  cases hf : l.filter P with
  | nil => rw [hf] at h; cases h
  | cons c cs =>
    rw [hf] at h
    injection h with h
    subst h
    have hcmem : c ∈ l.filter P := by rw [hf]; exact List.mem_cons_self c cs
    rw [List.mem_filter] at hcmem
    refine ⟨hcmem.1, hcmem.2, ?_⟩
    intro b hb hPb
    have hbf : b ∈ l.filter P := List.mem_filter.mpr ⟨hb, hPb⟩
    rw [hf] at hbf
    rcases List.mem_cons.mp hbf with hba | hbcs
    · exact Or.inl hba
    · rw [hf] at hpf
      exact Or.inr ((List.pairwise_cons.mp hpf).1 b hbcs)

theorem getLast_filter_spec {α : Type} {r : α → α → Prop} {P : α → Bool} {l : List α}
    (hs : l.Pairwise r) {a : α} (h : (l.filter P).getLast? = some a) :
    a ∈ l ∧ P a = true ∧ ∀ b ∈ l, P b = true → b = a ∨ r b a := by
  have hrev : (l.reverse.filter P).head? = some a := by
    rw [List.filter_reverse, List.head?_reverse]
    exact h
  have hsrev : l.reverse.Pairwise (flip r) := List.pairwise_reverse.mpr hs
  have hspec := head_filter_spec hsrev hrev
  refine ⟨List.mem_reverse.mp hspec.1, hspec.2.1, ?_⟩
  intro b hb hPb
  rcases hspec.2.2 b (List.mem_reverse.mpr hb) hPb with hba | hr
  · exact Or.inl hba
  · exact Or.inr hr

/-- C3: with the transition groups of the current way keyed in strictly
ascending node order (the `BTreeMap` invariant), the three groups the search
relaxes are exactly the group stored at the popped node itself, the group at
the smallest node strictly greater, and the group at the largest node strictly
smaller. -/
theorem dijkstra_three_group_selection (groups : GroupList) (x : SearchNode)
    (hsorted : groups.Pairwise (fun p q => ltNode p.1 q.1)) :
    (∀ p, selectIdentityGroup groups x = some p → p.1 = x ∧ p ∈ groups)
    ∧ (selectIdentityGroup groups x = none ↔ ∀ q ∈ groups, q.1 ≠ x)
    ∧ (∀ p, selectGroupAfter groups x = some p →
        p ∈ groups ∧ ltNode x p.1 ∧ ∀ q ∈ groups, ltNode x q.1 → leNode p.1 q.1)
    ∧ (selectGroupAfter groups x = none ↔ ∀ q ∈ groups, ¬ ltNode x q.1)
    ∧ (∀ p, selectGroupBefore groups x = some p →
        p ∈ groups ∧ ltNode p.1 x ∧ ∀ q ∈ groups, ltNode q.1 x → leNode q.1 p.1)
    ∧ (selectGroupBefore groups x = none ↔ ∀ q ∈ groups, ¬ ltNode q.1 x) := by
  refine ⟨?_, ?_, ?_, ?_, ?_, ?_⟩
  · intro p hp
    have hspec := head_filter_spec hsorted hp
    exact ⟨of_decide_eq_true hspec.2.1, hspec.1⟩
  · unfold selectIdentityGroup
    rw [List.head?_eq_none_iff, List.filter_eq_nil_iff]
    constructor
    · intro h q hq
      have := h q hq
      simpa using this
    · intro h q hq
      simpa using h q hq
  · intro p hp
    have hspec := head_filter_spec hsorted hp
    refine ⟨hspec.1, of_decide_eq_true hspec.2.1, ?_⟩
    intro q hq hlt
    rcases hspec.2.2 q hq (decide_eq_true hlt) with hqa | hr
    · rw [hqa]; exact leNode_refl _
    · exact ltNode_leNode hr
  · unfold selectGroupAfter
    rw [List.head?_eq_none_iff, List.filter_eq_nil_iff]
    constructor
    · intro h q hq
      have := h q hq
      simpa using this
    · intro h q hq
      simpa using h q hq
  · intro p hp
    have hspec := getLast_filter_spec hsorted hp
    refine ⟨hspec.1, of_decide_eq_true hspec.2.1, ?_⟩
    intro q hq hlt
    rcases hspec.2.2 q hq (decide_eq_true hlt) with hqa | hr
    · rw [hqa]; exact leNode_refl _
    · exact ltNode_leNode hr
  · unfold selectGroupBefore
    rw [List.getLast?_eq_none_iff, List.filter_eq_nil_iff]
    constructor
    · intro h q hq
      have := h q hq
      simpa using this
    · intro h q hq
      simpa using h q hq

/-- C3 witness: on a concrete sorted group list, a node beyond every stored
node selects no after-group. -/
theorem dijkstra_three_group_selection_witness :
    selectGroupAfter
        [(SearchNode.mk 1 0, ([] : TransGroup)), (SearchNode.mk 1 5, []), (SearchNode.mk 1 9, [])]
        (SearchNode.mk 1 9) = none :=
  ((dijkstra_three_group_selection
      [(SearchNode.mk 1 0, []), (SearchNode.mk 1 5, []), (SearchNode.mk 1 9, [])]
      (SearchNode.mk 1 9)
      (by simp [List.pairwise_cons]; decide)).2.2.2.1).mpr (by decide)

theorem followLinks_subset (log : List SearchState) :
    ∀ fuel cursor, ∀ s ∈ followLinks log cursor fuel, s ∈ log := by
  intro fuel
  induction fuel with
  | zero => intro cursor s hs; cases hs
  | succ fuel ih =>
    intro cursor s hs
    unfold followLinks at hs
    rcases h : log[cursor]? with _ | step
    · rw [h] at hs; cases hs
    · rw [h] at hs
      dsimp only at hs
      by_cases hroot : step.previous = step.idx
      · rw [if_pos hroot] at hs
        rcases List.mem_singleton.mp hs with rfl
        exact List.getElem?_mem h
      · rw [if_neg hroot] at hs
        rcases List.mem_cons.mp hs with rfl | hmem
        · exact List.getElem?_mem h
        · exact ih step.previous s hmem

/-- The chain collected by `followLinks` ends properly: it is empty because
the starting index is outside the log, or its last state is a root
(`previous == idx`) or points outside the log. -/
def endsOk (log raw : List SearchState) (e : Nat) : Prop :=
  (raw = [] ∧ log[e]? = none)
  ∨ ∃ last, raw.getLast? = some last
      ∧ (last.previous = last.idx ∨ log[last.previous]? = none)

theorem followLinks_endsOk (log : List SearchState) :
    ∀ fuel cursor, (followLinks log cursor fuel).length < fuel →
      endsOk log (followLinks log cursor fuel) cursor := by
  intro fuel
  induction fuel with
  | zero => intro cursor h; omega
  | succ fuel ih =>
    intro cursor hlen
    unfold followLinks at hlen ⊢
    rcases h : log[cursor]? with _ | step
    · dsimp only
      exact Or.inl ⟨rfl, h⟩
    · rw [h] at hlen
      dsimp only at hlen ⊢
      by_cases hroot : step.previous = step.idx
      · rw [if_pos hroot] at hlen ⊢
        exact Or.inr ⟨step, rfl, Or.inl hroot⟩
      · rw [if_neg hroot] at hlen ⊢
        have hlen' : (followLinks log step.previous fuel).length < fuel := by
          simp at hlen
          omega
        rcases ih step.previous hlen' with ⟨hnil, hout⟩ | ⟨last, hlast, hend⟩
        · rw [hnil]
          exact Or.inr ⟨step, rfl, Or.inr hout⟩
        · rcases hrest : followLinks log step.previous fuel with _ | ⟨r, rs⟩
          · rw [hrest] at hlast; cases hlast
          · rw [hrest] at hlast
            refine Or.inr ⟨last, ?_, hend⟩
            rw [List.getLast?_cons_cons]
            exact hlast

theorem unwindLoop_spec (log : List SearchState) :
    ∀ fuel acc cursor, acc.Nodup → (∀ s ∈ acc, s ∈ log) →
      log.length < fuel + acc.length →
      unwindLoop log acc cursor fuel =
        some (if (acc ++ followLinks log cursor fuel).Nodup
              then acc ++ followLinks log cursor fuel else []) := by
  intro fuel
  induction fuel with
  | zero =>
    intro acc cursor hnd hsub hlen
    exfalso
    have := (List.subperm_of_subset hnd hsub).length_le
    omega
  | succ fuel ih =>
    intro acc cursor hnd hsub hlen
    unfold unwindLoop followLinks
    rcases h : log[cursor]? with _ | step
    · dsimp only
      rw [List.append_nil, if_pos hnd]
    · dsimp only
      by_cases hmem : step ∈ acc
      · rw [if_pos hmem]
        have hnodup : ∀ rest : List SearchState, ¬ (acc ++ step :: rest).Nodup := by
          intro rest hnod
          rcases List.nodup_append.mp hnod with ⟨_, _, hdisj⟩
          exact hdisj hmem (List.mem_cons_self step rest)
        by_cases hroot : step.previous = step.idx
        · rw [if_pos hroot, if_neg (hnodup [])]
        · rw [if_neg hroot, if_neg (hnodup _)]
      · rw [if_neg hmem]
        have hnd' : (acc ++ [step]).Nodup := by
          rw [List.nodup_append]
          refine ⟨hnd, List.nodup_singleton step, ?_⟩
          intro a ha hastep
          rcases List.mem_singleton.mp hastep with rfl
          exact hmem ha
        by_cases hroot : step.previous = step.idx
        · rw [if_pos hroot, if_pos hroot, if_pos hnd']
        · rw [if_neg hroot]
          have hsub' : ∀ s ∈ acc ++ [step], s ∈ log := by
            intro s hsmem
            rcases List.mem_append.mp hsmem with hs | hs
            · exact hsub s hs
            · rcases List.mem_singleton.mp hs with rfl
              exact List.getElem?_mem h
          have hlen' : log.length < fuel + (acc ++ [step]).length := by
            simp
            omega
          have hrec := ih (acc ++ [step]) step.previous hnd' hsub' hlen'
          rw [hrec, if_neg hroot, List.append_assoc]
          simp

/-- C9 (amended): for every step log and end index the unwinding loop
terminates within `|log| + 1` iterations, yielding the raw predecessor chain
when no state repeats in it and the empty route when one does; a cycle-free
chain genuinely ends at a root state or outside the log; and `unwind_route`
returns the reversed chain only when every adjacent pair passes the
distance-consistency assertion, panicking (modelled as `none`) otherwise — in
particular a revisited state still yields the empty route. -/
theorem unwind_route_amended (log : List SearchState) (e : Nat) :
    (unwindLoop log [] e (log.length + 1) =
      some (if (followLinks log e (log.length + 1)).Nodup
            then followLinks log e (log.length + 1) else []))
    ∧ (unwind_route log e =
        (if windowsOk (if (followLinks log e (log.length + 1)).Nodup
                       then followLinks log e (log.length + 1) else []).reverse
         then some (if (followLinks log e (log.length + 1)).Nodup
                    then followLinks log e (log.length + 1) else []).reverse
         else none))
    ∧ ((followLinks log e (log.length + 1)).Nodup →
        endsOk log (followLinks log e (log.length + 1)) e)
    ∧ (¬ (followLinks log e (log.length + 1)).Nodup → unwind_route log e = some []) := by
  have h1 := unwindLoop_spec log (log.length + 1) [] e List.nodup_nil
    (by intro s hs; cases hs) (by simp)
  rw [List.nil_append] at h1
  have h2 : unwind_route log e =
      (if windowsOk (if (followLinks log e (log.length + 1)).Nodup
                     then followLinks log e (log.length + 1) else []).reverse
       then some (if (followLinks log e (log.length + 1)).Nodup
                  then followLinks log e (log.length + 1) else []).reverse
       else none) := by
    unfold unwind_route
    rw [h1]
  refine ⟨h1, h2, ?_, ?_⟩
  · intro hnodup
    have hsub := followLinks_subset log (log.length + 1) e
    have hlen : (followLinks log e (log.length + 1)).length < log.length + 1 := by
      have := (List.subperm_of_subset hnodup hsub).length_le
      omega
    exact followLinks_endsOk log (log.length + 1) e hlen
  · intro hnodup
    rw [h2, if_neg hnodup]
    simp [windowsOk]

/-- A root search state used in concrete unwinding runs. -/
def stateRootA : SearchState :=
  { previous := 0, idx := 0, node := { way := 1, distance_along_way_mm := 0 }
    via := { way := 1, distance_along_way_mm := 0 }, cost := RoutingCost.zero }

/-- A second log entry whose recorded cost distance (100 mm) disagrees with
the geometric distance to its predecessor (5 mm). -/
def stateBadB : SearchState :=
  { previous := 0, idx := 1, node := { way := 1, distance_along_way_mm := 5 }
    via := { way := 1, distance_along_way_mm := 5 }
    cost := { cost_millis := 0, actual_millis := 0, distance_mm := 100 } }

/-- C9 counterexample: on the two-state log `[stateRootA, stateBadB]` the
chain from index 1 is revisit-free, yet `unwind_route` does not return the
reversed chain — the `assert_eq!` distance check fails (a panic, `none`),
contradicting the claim that the collected chain is returned. -/
theorem unwind_route_counterexample :
    unwind_route [stateRootA, stateBadB] 1 = none
    ∧ (followLinks [stateRootA, stateBadB] 1 3).Nodup
    ∧ followLinks [stateRootA, stateBadB] 1 3 = [stateBadB, stateRootA] := by
  refine ⟨?_, ?_, ?_⟩ <;> decide

/-- Two states forming a `previous`-link cycle (neither is a root). -/
def stateCycC : SearchState :=
  { previous := 1, idx := 0, node := { way := 1, distance_along_way_mm := 0 }
    via := { way := 1, distance_along_way_mm := 0 }, cost := RoutingCost.zero }

/-- The partner of `stateCycC` in the two-state cycle. -/
def stateCycD : SearchState :=
  { previous := 0, idx := 1, node := { way := 1, distance_along_way_mm := 1 }
    via := { way := 1, distance_along_way_mm := 1 }, cost := RoutingCost.zero }

/-- C9 witness: the amended theorem applied to the concrete cyclic log,
discharging its revisit hypothesis: the route returned is empty. -/
theorem unwind_route_amended_witness :
    unwind_route [stateCycC, stateCycD] 0 = some [] :=
  (unwind_route_amended [stateCycC, stateCycD] 0).2.2.2 (by decide)

/-! ## The JS costing binding (`demo-app/src/routing.rs`)

Host-supplied numbers (f64) are modelled as rationals; the saturating
float-to-integer `as` casts truncate toward zero and clamp to the target
range. -/

/-- Truncation of a rational toward zero (the rounding of Rust float-to-int
`as` casts). -/
def ratTrunc (q : Rat) : Int := if q < 0 then -(⌊-q⌋) else ⌊q⌋

/-- Rust `f64 as u32`: truncate toward zero, clamp into `[0, 2^32 - 1]`. -/
def f64_as_u32 (q : Rat) : Nat := (max 0 (min (ratTrunc q) (2 ^ 32 - 1))).toNat

/-- `TravelSpeed::from_meters_per_second`: metres/second times 1000, cast to
u32 µm/ms. -/
def TravelSpeed.from_meters_per_second (mps : Rat) : Nat := f64_as_u32 (mps * 1000)

/-- Modelled from the spec: `PartsPerMillion::from_fraction` (called by the
binding but absent from `costing/units.rs` in the source tree); a fraction `f`
maps to `f * 1000000` ppm. -/
def PartsPerMillion.from_fraction (f : Rat) : Nat := f64_as_u32 (f * 1000000)

/-- The host's way-costing return value (`JsWayCoster`). -/
structure JsWayCoster where
  speed_forward_meters_per_second : Option Rat
  speed_reverse_meters_per_second : Option Rat
  time_penalty_fraction_forward : Option Rat
  time_penalty_fraction_reverse : Option Rat
deriving DecidableEq, Repr

/-- Outcome of calling into the host: a thrown error, a value that does not
match the expected schema, or a well-formed `JsWayCoster`. -/
inductive JsCallResult where
  | err
  | badSchema
  | ok (w : JsWayCoster)
deriving DecidableEq, Repr

/-- `JsCostingModel::cost_way` from `demo-app/src/routing.rs`: errors and
schema mismatches yield the impassable coster; otherwise the `WayCoster` is
built from the host fields — note that the source passes
`speed_forward_meters_per_second` for BOTH the forward and the reverse speed
slot. -/
def js_cost_way (res : JsCallResult) : WayCoster :=
  match res with
  | .err => WayCoster.impassable
  | .badSchema => WayCoster.impassable
  | .ok js =>
      WayCoster.from_speeds
        (js.speed_forward_meters_per_second.map (fun s => TravelSpeed.from_meters_per_second s))
        (js.speed_forward_meters_per_second.map (fun s => TravelSpeed.from_meters_per_second s))
        (js.time_penalty_fraction_forward.map (fun f => PartsPerMillion.from_fraction f))
        (js.time_penalty_fraction_reverse.map (fun f => PartsPerMillion.from_fraction f))

/-- C2 (code bug): the binding derives the reverse speed from the
forward-speed field. A host reply with no forward speed but a reverse speed
of 1.4 m/s yields `speed_reverse = none` (reverse impassable), and a reply
with forward 2 m/s and no reverse speed yields `speed_reverse = some 2000`,
contradicting the claim that the reverse slot comes from
`speed_reverse_meters_per_second` alone. -/
theorem js_cost_way_reverse_uses_forward_field :
    (js_cost_way (JsCallResult.ok
        { speed_forward_meters_per_second := none
          speed_reverse_meters_per_second := some (7 / 5)
          time_penalty_fraction_forward := none
          time_penalty_fraction_reverse := none })).speed_reverse = none
    ∧ (js_cost_way (JsCallResult.ok
        { speed_forward_meters_per_second := some 2
          speed_reverse_meters_per_second := none
          time_penalty_fraction_forward := none
          time_penalty_fraction_reverse := none })).speed_reverse = some 2000 := by
  constructor
  · rfl
  · show some (TravelSpeed.from_meters_per_second 2) = some 2000
    unfold TravelSpeed.from_meters_per_second f64_as_u32 ratTrunc
    norm_num
    rfl

/-! ## Tile ingestion (`Graph::ingest_tile`)

The binary MVT decoding is the out-of-scope vector-tile reader; features
arrive already parsed as property maps plus a geometry.  The `roads` and
`intersections` layers are each an optional feature list (absent layer =
layer name not found).  f32 values are modelled as rationals. -/

/-- A decoded MVT property value (`mvt_reader::feature::Value`). -/
inductive PropValue where
  | str (s : String)
  | uint (n : Nat)
  | floatVal (q : Rat)
  | otherVal
deriving DecidableEq, Repr

/-- A decoded feature's property map. -/
abbrev Props := List (String × PropValue)

/-- A decoded feature geometry. -/
inductive Geom where
  | lineString (coords : List (Rat × Rat))
  | multiLineString (parts : List (List (Rat × Rat)))
  | otherGeom
deriving DecidableEq, Repr

/-- A decoded MVT feature. -/
structure Feature where
  properties : Props
  geometry : Geom
deriving DecidableEq, Repr

/-- String tag map of a way or intersection. -/
abbrev Tags := List (String × String)

/-- `Graph::get_u64_property`: missing or non-u64 properties are decode
errors that abort the whole ingestion. -/
def get_u64_property (props : Props) (prop_name : String) : Except String Nat :=
  match lookupAssoc props prop_name with
  | none => .error ("Intersection missing " ++ prop_name)
  | some (.uint n) => .ok n
  | some _ => .error "Property not a u64"

/-- `Graph::get_f32_property`. -/
def get_f32_property (props : Props) (prop_name : String) : Except String Rat :=
  match lookupAssoc props prop_name with
  | none => .error ("Intersection missing " ++ prop_name)
  | some (.floatVal q) => .ok q
  | some _ => .error "Property not a f32"

/-- The string-valued properties become tags; other value kinds are
dropped. -/
def stringTags (props : Props) : Tags :=
  props.filterMap (fun p =>
    match p.2 with
    | .str s => some (p.1, s)
    | _ => none)

/-- Rust `f32 as i32`: truncate toward zero, clamp into i32 range. -/
def f32_as_i32 (q : Rat) : Int := max (-(2 ^ 31)) (min (ratTrunc q) (2 ^ 31 - 1))

/-- `meters_to_mm_fixed`: metres times 1000, cast to i32 mm. -/
def meters_to_mm_fixed (meters : Rat) : Int := f32_as_i32 (meters * 1000)

/-- An intersection record annotated with the tags of both ways
(`AnnotatedWayTransition` in `ingest_tile`). -/
structure AnnotatedWayTransition where
  way_transition : WayTransition
  way_tags : Tags
  other_way_tags : Tags
  intersection_tags : Tags
deriving DecidableEq, Repr

/-- One transition forwarded to the costing model (`TransitionToCost`). -/
structure TransitionToCost where
  way_transition : WayTransition
  from_way_tags : Tags
  to_way_tags : Tags
  intersection_tags : Tags
deriving DecidableEq, Repr

/-- The costing model's intersection answer (`TransitionCostResult`). -/
structure TransitionCostResult where
  transition_costs : List (WayId × RoutingCost)
  continue_cost : Option RoutingCost
deriving DecidableEq, Repr

/-- The costing capability consumed by ingestion (`CostingModel`). -/
structure CostingModel where
  cost_way : Tags → WayCoster
  cost_intersection : Tags → List TransitionToCost → TransitionCostResult

/-- `HashMap::insert`: overwrite an existing key or append a new one. -/
def insertAssocOverwrite {κ α : Type} [DecidableEq κ] (m : List (κ × α)) (k : κ) (v : α) :
    List (κ × α) :=
  if (lookupAssoc m k).isSome then updateAssoc m k v else m ++ [(k, v)]

/-- The geometry accepted for a way: a single `LineString`, or a
`MultiLineString` with exactly one part; anything else is skipped with a
warning (`continue`). -/
def extractLineString (geom : Geom) : Option (List (Rat × Rat)) :=
  match geom with
  | .lineString coords => some coords
  | .multiLineString parts => if parts.length > 1 then none else parts.head?
  | .otherGeom => none

/-- One iteration of the `roads` feature loop of `Graph::ingest_tile`: store
the `WayCoster` and the tags, then store the polyline unless the geometry is
skipped. -/
def processRoadFeature (cm : CostingModel) (x y z extent : Nat)
    (st : List (WayId × Tags) × Graph) (f : Feature) :
    Except String (List (WayId × Tags) × Graph) :=
  match get_u64_property f.properties "way_id" with
  | .error e => .error e
  | .ok way_id =>
    let tags := stringTags f.properties
    let way_cost := cm.cost_way tags
    let way_tags := insertAssocOverwrite st.1 way_id tags
    let g := st.2
    let g := { g with ways := g.ways ++ [(way_id, way_cost)] }
    match extractLineString f.geometry with
    | none => .ok (way_tags, g)
    | some coords =>
        let polyline := coords.map (fun c =>
          TileCoordinates.mk x y z extent (f32_as_i32 c.1) (f32_as_i32 c.2))
        .ok (way_tags, { g with geometry := g.geometry ++ [(way_id, polyline)] })

/-- The `roads` feature loop. -/
def processRoads (cm : CostingModel) (x y z extent : Nat) :
    List Feature → List (WayId × Tags) × Graph →
    Except String (List (WayId × Tags) × Graph)
  | [], st => .ok st
  | f :: rest, st =>
    match processRoadFeature cm x y z extent st f with
    | .error e => .error e
    | .ok st' => processRoads cm x y z extent rest st'

/-- The per-source-node grouping map of annotated transitions. -/
abbrev GroupMap := List (SearchNode × List AnnotatedWayTransition)

/-- Record a transition under its source node (`transition_groups.get_mut`
push, or insert of a fresh singleton vector). -/
def updateGroups (groups : GroupMap) (sn : SearchNode) (awt : AnnotatedWayTransition) :
    GroupMap :=
  if (lookupAssoc groups sn).isSome then
    groups.map (fun p => if p.1 = sn then (p.1, p.2 ++ [awt]) else p)
  else groups ++ [(sn, [awt])]

/-- One iteration of the `intersections` feature loop: read the mandatory
properties (errors abort ingestion), record the search node, and group the
annotated transition — skipping it with a warning when either way's tags are
missing. -/
def processIntersectionFeature (way_tags : List (WayId × Tags))
    (st : GroupMap × Graph) (f : Feature) : Except String (GroupMap × Graph) :=
  let intersection_tags := stringTags f.properties
  match get_u64_property f.properties "way_id" with
  | .error e => .error e
  | .ok from_way_id =>
  match get_u64_property f.properties "transition_to_way" with
  | .error e => .error e
  | .ok to_way_id =>
  match get_f32_property f.properties "distance_along_way" with
  | .error e => .error e
  | .ok distance_along_way =>
  match get_f32_property f.properties "transition_to_distance_along_way" with
  | .error e => .error e
  | .ok transition_to_distance_along_way =>
    let distance_along_way_mm := meters_to_mm_fixed distance_along_way
    let search_node : SearchNode :=
      { way := from_way_id, distance_along_way_mm := distance_along_way_mm }
    let way_transition : WayTransition :=
      { from_way_id := from_way_id
        distance_along_way_mm := distance_along_way_mm
        to_way_id := to_way_id
        transition_to_distance_along_way_mm :=
          meters_to_mm_fixed transition_to_distance_along_way }
    let g := { st.2 with nodes := st.2.nodes ++ [(from_way_id, search_node)] }
    match lookupAssoc way_tags from_way_id, lookupAssoc way_tags to_way_id with
    | some wt, some owt =>
        let awt : AnnotatedWayTransition :=
          { way_transition := way_transition, way_tags := wt
            other_way_tags := owt, intersection_tags := intersection_tags }
        .ok (updateGroups st.1 search_node awt, g)
    | _, _ => .ok (st.1, g)

/-- The `intersections` feature loop. -/
def processIntersections (way_tags : List (WayId × Tags)) :
    List Feature → GroupMap × Graph → Except String (GroupMap × Graph)
  | [], st => .ok st
  | f :: rest, st =>
    match processIntersectionFeature way_tags st f with
    | .error e => .error e
    | .ok st' => processIntersections way_tags rest st'

/-- The `way_transition_lookup` map: collecting `(to_way_id, way_transition)`
pairs into a `HashMap` lets later duplicates win, so look the reversed group
up front-to-back. -/
def lookupToWay (transition_group : List AnnotatedWayTransition) (toW : WayId) :
    Option WayTransition :=
  (transition_group.reverse.find?
    (fun awt => decide (awt.way_transition.to_way_id = toW))).map
    (fun awt => awt.way_transition)

/-- Insertion of the costed transitions returned by the costing model; a
returned `to_way_id` outside the group makes the source's `.unwrap()` panic
(an error here). -/
def insertTransitionCosts (sn : SearchNode) (transition_group : List AnnotatedWayTransition) :
    List (WayId × RoutingCost) → Graph → Except String Graph
  | [], g => .ok g
  | tc :: rest, g =>
    match lookupToWay transition_group tc.1 with
    | none => .error "way_transition_lookup get unwrap failed"
    | some wt =>
        insertTransitionCosts sn transition_group rest
          { g with transitions :=
              g.transitions ++ [(sn, ({ to_way_id := tc.1, cost := tc.2 }, wt))] }

/-- One iteration of the per-group costing loop: call `cost_intersection`
once for the group, insert each returned costed transition, and insert the
identity transition when a continue cost is returned. -/
def processGroup (cm : CostingModel) (way_tags : List (WayId × Tags)) (g : Graph)
    (entry : SearchNode × List AnnotatedWayTransition) : Except String Graph :=
  let search_node := entry.1
  let transition_group := entry.2
  match lookupAssoc way_tags search_node.way with
  | none => .error "Missing way tags"
  | some current_way_tags =>
    let transitions_to_cost : List TransitionToCost := transition_group.map (fun awt =>
      { way_transition := awt.way_transition
        from_way_tags := awt.way_tags
        to_way_tags := awt.other_way_tags
        intersection_tags := awt.intersection_tags })
    let intersection_costs := cm.cost_intersection current_way_tags transitions_to_cost
    match insertTransitionCosts search_node transition_group
        intersection_costs.transition_costs g with
    | .error e => .error e
    | .ok g' =>
      match intersection_costs.continue_cost with
      | none => .ok g'
      | some continue_cost =>
          .ok { g' with transitions := g'.transitions ++
            [(search_node,
              ({ to_way_id := search_node.way, cost := continue_cost },
               { from_way_id := search_node.way
                 distance_along_way_mm := search_node.distance_along_way_mm
                 to_way_id := search_node.way
                 transition_to_distance_along_way_mm := search_node.distance_along_way_mm }))] }

/-- The per-group costing loop. -/
def processGroups (cm : CostingModel) (way_tags : List (WayId × Tags)) :
    GroupMap → Graph → Except String Graph
  | [], g => .ok g
  | entry :: rest, g =>
    match processGroup cm way_tags g entry with
    | .error e => .error e
    | .ok g' => processGroups cm way_tags rest g'

/-- `Graph::ingest_tile`: process the `roads` layer (absent layer: no
features), then the `intersections` layer; the four `refresh` calls are
no-ops in this sequential model. -/
def ingest_tile (g0 : Graph) (cm : CostingModel) (x y z extent : Nat)
    (roadsLayer : Option (List Feature)) (intersectionsLayer : Option (List Feature)) :
    Except String Graph :=
  match (match roadsLayer with
         | none => Except.ok ([], g0)
         | some features => processRoads cm x y z extent features ([], g0)) with
  | .error e => .error e
  | .ok st1 =>
    match intersectionsLayer with
    | none => .ok st1.2
    | some features =>
      match processIntersections st1.1 features ([], st1.2) with
      | .error e => .error e
      | .ok st2 => processGroups cm st1.1 st2.1 st2.2

/-- A way has a `WayCoster` entry in the ways map. -/
def waysHas (g : Graph) (w : WayId) : Prop := (lookupAssoc g.ways w).isSome = true

/-- A way has a polyline entry in the geometry map. -/
def geomHas (g : Graph) (w : WayId) : Prop := (lookupAssoc g.geometry w).isSome = true

/-- A way id has a recorded tag map. -/
def keyHasTags (m : List (WayId × Tags)) (w : WayId) : Prop :=
  (lookupAssoc m w).isSome = true

/-- Every `to_way` of every stored transition (in both the costed record and
the raw record) has a `WayCoster` entry. -/
def transTargetsCovered (g : Graph) : Prop :=
  ∀ p ∈ g.transitions, waysHas g p.2.1.to_way_id ∧ waysHas g p.2.2.to_way_id

/-- Every `to_way` of every stored transition has a polyline entry. -/
def transTargetsHaveGeom (g : Graph) : Prop :=
  ∀ p ∈ g.transitions, geomHas g p.2.1.to_way_id ∧ geomHas g p.2.2.to_way_id

/-- Every feature of the (optional) roads layer carries a usable line-string
geometry, i.e. no feature's geometry is skipped. -/
def goodGeometryLayer (roadsLayer : Option (List Feature)) : Prop :=
  ∀ f ∈ roadsLayer.getD [], (extractLineString f.geometry).isSome = true

theorem lookupAssoc_append {κ α : Type} [DecidableEq κ] (m l : List (κ × α)) (k : κ) :
    lookupAssoc (m ++ l) k = (lookupAssoc m k).or (lookupAssoc l k) := by
  induction m with
  | nil => simp [lookupAssoc]
  | cons p rest ih =>
    by_cases hp : p.1 = k
    · simp [lookupAssoc, hp]
    · simp [lookupAssoc, hp, ih]

theorem lookupAssoc_isSome_append_left {κ α : Type} [DecidableEq κ]
    {m : List (κ × α)} {k : κ} (l : List (κ × α)) (h : (lookupAssoc m k).isSome = true) :
    (lookupAssoc (m ++ l) k).isSome = true := by
  rw [lookupAssoc_append]
  rcases hm : lookupAssoc m k with _ | v
  · rw [hm] at h; cases h
  · simp [Option.or]

theorem lookupAssoc_singleton_self {κ α : Type} [DecidableEq κ] (k : κ) (v : α) :
    lookupAssoc [(k, v)] k = some v := by
  simp [lookupAssoc]

theorem lookupAssoc_isSome_append_singleton {κ α : Type} [DecidableEq κ]
    (m : List (κ × α)) (k : κ) (v : α) :
    (lookupAssoc (m ++ [(k, v)]) k).isSome = true := by
  rw [lookupAssoc_append, lookupAssoc_singleton_self]
  rcases lookupAssoc m k with _ | w <;> simp [Option.or]

theorem updateAssoc_of_lookup_none {κ α : Type} [DecidableEq κ]
    {m : List (κ × α)} {k : κ} (v : α) (h : lookupAssoc m k = none) :
    updateAssoc m k v = m := by
  induction m with
  | nil => rfl
  | cons p rest ih =>
    by_cases hp : p.1 = k
    · simp only [lookupAssoc, if_pos hp] at h
      cases h
    · simp only [lookupAssoc, if_neg hp] at h
      simp [updateAssoc, hp, ih h]

theorem insertAssocOverwrite_isSome_self {κ α : Type} [DecidableEq κ]
    (m : List (κ × α)) (k : κ) (v : α) :
    (lookupAssoc (insertAssocOverwrite m k v) k).isSome = true := by
  unfold insertAssocOverwrite
  by_cases hm : (lookupAssoc m k).isSome = true
  · rw [if_pos hm]
    rcases hl : lookupAssoc m k with _ | b
    · rw [hl] at hm; cases hm
    · rw [lookupAssoc_updateAssoc_self m k v b hl]
      rfl
  · rw [if_neg hm]
    exact lookupAssoc_isSome_append_singleton m k v

theorem insertAssocOverwrite_isSome_elim {κ α : Type} [DecidableEq κ]
    {m : List (κ × α)} {k : κ} {v : α} {w : κ}
    (h : (lookupAssoc (insertAssocOverwrite m k v) w).isSome = true) :
    w = k ∨ (lookupAssoc m w).isSome = true := by
  by_cases hw : w = k
  · exact Or.inl hw
  · refine Or.inr ?_
    unfold insertAssocOverwrite at h
    by_cases hm : (lookupAssoc m k).isSome = true
    · rw [if_pos hm, lookupAssoc_updateAssoc_ne m k v w hw] at h
      exact h
    · rw [if_neg hm, lookupAssoc_append] at h
      have hs : lookupAssoc [(k, v)] w = none := by
        have hkw : ¬ k = w := fun hh => hw hh.symm
        simp [lookupAssoc, hkw]
      rw [hs] at h
      rcases hl : lookupAssoc m w with _ | b
      · rw [hl] at h; cases h
      · rfl

theorem processRoadFeature_shape {cm : CostingModel} {x y z extent : Nat}
    {st st' : List (WayId × Tags) × Graph} {f : Feature}
    (h : processRoadFeature cm x y z extent st f = .ok st') :
    ∃ way_id,
      get_u64_property f.properties "way_id" = .ok way_id
      ∧ st'.1 = insertAssocOverwrite st.1 way_id (stringTags f.properties)
      ∧ (∃ wc, st'.2.ways = st.2.ways ++ [(way_id, wc)])
      ∧ (st'.2.geometry = st.2.geometry
          ∨ ∃ pl, st'.2.geometry = st.2.geometry ++ [(way_id, pl)])
      ∧ ((extractLineString f.geometry).isSome = true →
          ∃ pl, st'.2.geometry = st.2.geometry ++ [(way_id, pl)])
      ∧ st'.2.transitions = st.2.transitions
      ∧ st'.2.nodes = st.2.nodes := by
  unfold processRoadFeature at h
  rcases hu : get_u64_property f.properties "way_id" with e | wid
  · rw [hu] at h; cases h
  · rw [hu] at h
    dsimp only at h
    rcases hg : extractLineString f.geometry with _ | coords
    · rw [hg] at h
      injection h with h
      subst h
      refine ⟨wid, rfl, rfl, ⟨_, rfl⟩, Or.inl rfl, ?_, rfl, rfl⟩
      intro hc
      simp at hc
    · rw [hg] at h
      injection h with h
      subst h
      exact ⟨wid, rfl, rfl, ⟨_, rfl⟩, Or.inr ⟨_, rfl⟩, fun _ => ⟨_, rfl⟩, rfl, rfl⟩

theorem processRoads_spec (cm : CostingModel) (x y z extent : Nat) :
    ∀ (features : List Feature) (st st' : List (WayId × Tags) × Graph),
      processRoads cm x y z extent features st = .ok st' →
      (∃ ws, st'.2.ways = st.2.ways ++ ws)
      ∧ (∃ gs, st'.2.geometry = st.2.geometry ++ gs)
      ∧ st'.2.transitions = st.2.transitions
      ∧ st'.2.nodes = st.2.nodes
      ∧ ((∀ w, keyHasTags st.1 w → (lookupAssoc st.2.ways w).isSome = true) →
          ∀ w, keyHasTags st'.1 w → (lookupAssoc st'.2.ways w).isSome = true)
      ∧ ((∀ f ∈ features, (extractLineString f.geometry).isSome = true) →
          (∀ w, keyHasTags st.1 w → (lookupAssoc st.2.geometry w).isSome = true) →
          ∀ w, keyHasTags st'.1 w → (lookupAssoc st'.2.geometry w).isSome = true) := by
  intro features
  induction features with
  | nil =>
    intro st st' h
    injection h with h
    subst h
    exact ⟨⟨[], by simp⟩, ⟨[], by simp⟩, rfl, rfl, fun hc => hc, fun _ hc => hc⟩
  | cons f rest ih =>
    intro st st' h
    unfold processRoads at h
    rcases hf : processRoadFeature cm x y z extent st f with e | stm
    · rw [hf] at h; cases h
    · rw [hf] at h
      obtain ⟨wid, _, htags, ⟨wc, hways⟩, hgeomOr, hgeomIf, htrans, hnodes⟩ :=
        processRoadFeature_shape hf
      obtain ⟨⟨ws, hws⟩, ⟨gs, hgs⟩, htrans2, hnodes2, hcovW, hcovG⟩ := ih stm st' h
      refine ⟨?_, ?_, ?_, ?_, ?_, ?_⟩
      · exact ⟨[(wid, wc)] ++ ws, by rw [hws, hways, List.append_assoc]⟩
      · rcases hgeomOr with hg2 | ⟨pl, hg2⟩
        · exact ⟨gs, by rw [hgs, hg2]⟩
        · exact ⟨[(wid, pl)] ++ gs, by rw [hgs, hg2, List.append_assoc]⟩
      · rw [htrans2, htrans]
      · rw [hnodes2, hnodes]
      · intro hbase
        refine hcovW ?_
        intro w hw
        rw [htags] at hw
        rw [hways]
        rcases insertAssocOverwrite_isSome_elim hw with rfl | hold
        · exact lookupAssoc_isSome_append_singleton st.2.ways w wc
        · exact lookupAssoc_isSome_append_left _ (hbase w hold)
      · intro hgood hbase
        refine hcovG (fun f' hf' => hgood f' (List.mem_cons_of_mem f hf')) ?_
        intro w hw
        rw [htags] at hw
        obtain ⟨pl, hpl⟩ := hgeomIf (hgood f (List.mem_cons_self f rest))
        rw [hpl]
        rcases insertAssocOverwrite_isSome_elim hw with rfl | hold
        · exact lookupAssoc_isSome_append_singleton st.2.geometry w pl
        · exact lookupAssoc_isSome_append_left _ (hbase w hold)

/-- A way's road feature geometry was kept (not skipped): some feature of the
roads layer parses to this way id and carries a usable line-string
geometry. -/
def wayGeometryKept (roadsLayer : Option (List Feature)) (w : WayId) : Prop :=
  ∃ f ∈ roadsLayer.getD [],
    get_u64_property f.properties "way_id" = .ok w
    ∧ (extractLineString f.geometry).isSome = true

theorem processRoads_geom_kept (cm : CostingModel) (x y z extent : Nat) :
    ∀ (features : List Feature) (st st' : List (WayId × Tags) × Graph),
      processRoads cm x y z extent features st = .ok st' →
      ∀ w, (∃ f ∈ features,
              get_u64_property f.properties "way_id" = .ok w
              ∧ (extractLineString f.geometry).isSome = true) →
        (lookupAssoc st'.2.geometry w).isSome = true := by
  intro features
  induction features with
  | nil =>
    intro st st' h w hw
    obtain ⟨f, hf, _, _⟩ := hw
    cases hf
  | cons f rest ih =>
    intro st st' h w hw
    unfold processRoads at h
    rcases hf : processRoadFeature cm x y z extent st f with e | stm
    · rw [hf] at h; cases h
    · rw [hf] at h
      obtain ⟨f', hfmem, hu, hext⟩ := hw
      rcases List.mem_cons.mp hfmem with rfl | hrest
      · obtain ⟨wid, hu2, _, _, _, hgeomIf, _, _⟩ := processRoadFeature_shape hf
        have hwid : w = wid := by
          rw [hu] at hu2
          injection hu2
        subst hwid
        obtain ⟨pl, hpl⟩ := hgeomIf hext
        obtain ⟨_, ⟨gs, hgs⟩, _, _, _, _⟩ := processRoads_spec cm x y z extent rest stm st' h
        rw [hgs, hpl]
        exact lookupAssoc_isSome_append_left gs
          (lookupAssoc_isSome_append_singleton st.2.geometry w pl)
      · exact ih stm st' h w ⟨f', hrest, hu, hext⟩

/-- Well-formedness of the grouping map: every group key's way and every
grouped transition's target way have recorded tags (both lookups succeeded
when the feature was grouped). -/
def groupsWf (m : List (WayId × Tags)) (groups : GroupMap) : Prop :=
  ∀ e ∈ groups, keyHasTags m e.1.way
    ∧ ∀ awt ∈ e.2, keyHasTags m awt.way_transition.to_way_id

theorem updateGroups_wf {m : List (WayId × Tags)} {groups : GroupMap}
    {sn : SearchNode} {awt : AnnotatedWayTransition}
    (h : groupsWf m groups) (hsn : keyHasTags m sn.way)
    (hawt : keyHasTags m awt.way_transition.to_way_id) :
    groupsWf m (updateGroups groups sn awt) := by
  unfold updateGroups
  by_cases hmem : (lookupAssoc groups sn).isSome = true
  · rw [if_pos hmem]
    intro e he
    rw [List.mem_map] at he
    obtain ⟨e0, he0, hee⟩ := he
    by_cases hsn0 : e0.1 = sn
    · rw [if_pos hsn0] at hee
      subst hee
      refine ⟨(h e0 he0).1, ?_⟩
      intro a ha
      rcases List.mem_append.mp ha with ha | ha
      · exact (h e0 he0).2 a ha
      · rcases List.mem_singleton.mp ha with rfl
        exact hawt
    · rw [if_neg hsn0] at hee
      subst hee
      exact h e0 he0
  · rw [if_neg hmem]
    intro e he
    rcases List.mem_append.mp he with he | he
    · exact h e he
    · rcases List.mem_singleton.mp he with rfl
      refine ⟨hsn, ?_⟩
      intro a ha
      rcases List.mem_singleton.mp ha with rfl
      exact hawt

theorem processIntersectionFeature_spec {way_tags : List (WayId × Tags)}
    {st st' : GroupMap × Graph} {f : Feature}
    (h : processIntersectionFeature way_tags st f = .ok st') :
    st'.2.ways = st.2.ways
    ∧ st'.2.geometry = st.2.geometry
    ∧ st'.2.transitions = st.2.transitions
    ∧ (groupsWf way_tags st.1 → groupsWf way_tags st'.1) := by
  unfold processIntersectionFeature at h
  rcases h1 : get_u64_property f.properties "way_id" with e | from_way_id
  · rw [h1] at h; cases h
  · rw [h1] at h
    dsimp only at h
    rcases h2 : get_u64_property f.properties "transition_to_way" with e | to_way_id
    · rw [h2] at h; cases h
    · rw [h2] at h
      dsimp only at h
      rcases h3 : get_f32_property f.properties "distance_along_way" with e | d1
      · rw [h3] at h; cases h
      · rw [h3] at h
        dsimp only at h
        rcases h4 : get_f32_property f.properties "transition_to_distance_along_way"
          with e | d2
        · rw [h4] at h; cases h
        · rw [h4] at h
          dsimp only at h
          rcases h5 : lookupAssoc way_tags from_way_id with _ | wt
          all_goals rcases h6 : lookupAssoc way_tags to_way_id with _ | owt
          all_goals rw [h5, h6] at h
          all_goals dsimp only at h
          all_goals injection h with h
          all_goals subst h
          · exact ⟨rfl, rfl, rfl, fun hw => hw⟩
          · exact ⟨rfl, rfl, rfl, fun hw => hw⟩
          · exact ⟨rfl, rfl, rfl, fun hw => hw⟩
          · refine ⟨rfl, rfl, rfl, ?_⟩
            intro hw
            refine updateGroups_wf hw ?_ ?_
            · show (lookupAssoc way_tags from_way_id).isSome = true
              rw [h5]; rfl
            · show (lookupAssoc way_tags to_way_id).isSome = true
              rw [h6]; rfl

theorem processIntersections_spec (way_tags : List (WayId × Tags)) :
    ∀ (features : List Feature) (st st' : GroupMap × Graph),
      processIntersections way_tags features st = .ok st' →
      st'.2.ways = st.2.ways
      ∧ st'.2.geometry = st.2.geometry
      ∧ st'.2.transitions = st.2.transitions
      ∧ (groupsWf way_tags st.1 → groupsWf way_tags st'.1) := by
  intro features
  induction features with
  | nil =>
    intro st st' h
    injection h with h
    subst h
    exact ⟨rfl, rfl, rfl, fun hw => hw⟩
  | cons f rest ih =>
    intro st st' h
    unfold processIntersections at h
    rcases hf : processIntersectionFeature way_tags st f with e | stm
    · rw [hf] at h; cases h
    · rw [hf] at h
      obtain ⟨hw1, hg1, ht1, hwf1⟩ := processIntersectionFeature_spec hf
      obtain ⟨hw2, hg2, ht2, hwf2⟩ := ih stm st' h
      exact ⟨hw2.trans hw1, hg2.trans hg1, ht2.trans ht1, fun hw => hwf2 (hwf1 hw)⟩

theorem insertTransitionCosts_spec (sn : SearchNode)
    (transition_group : List AnnotatedWayTransition) :
    ∀ (tcs : List (WayId × RoutingCost)) (g g' : Graph),
      insertTransitionCosts sn transition_group tcs g = .ok g' →
      g'.ways = g.ways
      ∧ g'.geometry = g.geometry
      ∧ ∃ newts, g'.transitions = g.transitions ++ newts
          ∧ ∀ q ∈ newts, ∃ awt ∈ transition_group,
              q.2.2 = awt.way_transition
              ∧ q.2.1.to_way_id = awt.way_transition.to_way_id
              ∧ q.2.2.to_way_id = awt.way_transition.to_way_id := by
  intro tcs
  induction tcs with
  | nil =>
    intro g g' h
    injection h with h
    subst h
    refine ⟨rfl, rfl, [], by simp, ?_⟩
    intro q hq
    cases hq
  | cons tc rest ih =>
    intro g g' h
    unfold insertTransitionCosts at h
    rcases hl : lookupToWay transition_group tc.1 with _ | wt
    · rw [hl] at h; cases h
    · rw [hl] at h
      obtain ⟨hw, hg, newts, htr, hcov⟩ := ih _ g' h
      have hmem : ∃ awt ∈ transition_group,
          wt = awt.way_transition ∧ awt.way_transition.to_way_id = tc.1 := by
        unfold lookupToWay at hl
        rcases hfind : transition_group.reverse.find?
            (fun awt => decide (awt.way_transition.to_way_id = tc.1)) with _ | awt
        · rw [hfind] at hl; cases hl
        · rw [hfind] at hl
          injection hl with hl
          refine ⟨awt, List.mem_reverse.mp (List.mem_of_find?_eq_some hfind), hl.symm, ?_⟩
          have := List.find?_some hfind
          exact of_decide_eq_true this
      refine ⟨hw, hg, ((sn, ({ to_way_id := tc.1, cost := tc.2 }, wt)) :: newts), ?_, ?_⟩
      · rw [htr]
        simp
      · intro q hq
        rcases List.mem_cons.mp hq with rfl | hq
        · obtain ⟨awt, hawt, hwt, htw⟩ := hmem
          exact ⟨awt, hawt, hwt, by simp [htw], by rw [hwt]⟩
        · exact hcov q hq

theorem processGroup_spec {cm : CostingModel} {way_tags : List (WayId × Tags)}
    {g g' : Graph} {entry : SearchNode × List AnnotatedWayTransition}
    (hwf : keyHasTags way_tags entry.1.way
      ∧ ∀ awt ∈ entry.2, keyHasTags way_tags awt.way_transition.to_way_id)
    (h : processGroup cm way_tags g entry = .ok g') :
    g'.ways = g.ways
    ∧ g'.geometry = g.geometry
    ∧ ∃ newts, g'.transitions = g.transitions ++ newts
        ∧ ∀ q ∈ newts, keyHasTags way_tags q.2.1.to_way_id
            ∧ keyHasTags way_tags q.2.2.to_way_id := by
  unfold processGroup at h
  dsimp only at h
  rcases hl : lookupAssoc way_tags entry.1.way with _ | current_way_tags
  · rw [hl] at h; cases h
  · rw [hl] at h
    dsimp only at h
    rcases hins : insertTransitionCosts entry.1 entry.2
        (cm.cost_intersection current_way_tags
          (entry.2.map (fun awt =>
            { way_transition := awt.way_transition
              from_way_tags := awt.way_tags
              to_way_tags := awt.other_way_tags
              intersection_tags := awt.intersection_tags }))).transition_costs g
      with e | gmid
    · rw [hins] at h; cases h
    · rw [hins] at h
      obtain ⟨hw, hgm, newts, htr, hcov⟩ :=
        insertTransitionCosts_spec entry.1 entry.2 _ g gmid hins
      have hcov' : ∀ q ∈ newts, keyHasTags way_tags q.2.1.to_way_id
          ∧ keyHasTags way_tags q.2.2.to_way_id := by
        intro q hq
        obtain ⟨awt, hawt, _, h1, h2⟩ := hcov q hq
        rw [h1, h2]
        exact ⟨hwf.2 awt hawt, hwf.2 awt hawt⟩
      rcases hc : (cm.cost_intersection current_way_tags
          (entry.2.map (fun awt =>
            { way_transition := awt.way_transition
              from_way_tags := awt.way_tags
              to_way_tags := awt.other_way_tags
              intersection_tags := awt.intersection_tags }))).continue_cost with _ | cc
    -- continue_cost cases
      · rw [hc] at h
        injection h with h
        subst h
        exact ⟨hw, hgm, newts, htr, hcov'⟩
      · rw [hc] at h
        injection h with h
        subst h
        refine ⟨hw, hgm, newts ++ [(entry.1,
          ({ to_way_id := entry.1.way, cost := cc },
           { from_way_id := entry.1.way
             distance_along_way_mm := entry.1.distance_along_way_mm
             to_way_id := entry.1.way
             transition_to_distance_along_way_mm := entry.1.distance_along_way_mm }))], ?_, ?_⟩
        · rw [htr]
          simp
        · intro q hq
          rcases List.mem_append.mp hq with hq | hq
          · exact hcov' q hq
          · rcases List.mem_singleton.mp hq with rfl
            exact ⟨hwf.1, hwf.1⟩

theorem processGroups_spec (cm : CostingModel) (way_tags : List (WayId × Tags)) :
    ∀ (groups : GroupMap) (g g' : Graph),
      groupsWf way_tags groups →
      processGroups cm way_tags groups g = .ok g' →
      g'.ways = g.ways
      ∧ g'.geometry = g.geometry
      ∧ ∃ newts, g'.transitions = g.transitions ++ newts
          ∧ ∀ q ∈ newts, keyHasTags way_tags q.2.1.to_way_id
              ∧ keyHasTags way_tags q.2.2.to_way_id := by
  intro groups
  induction groups with
  | nil =>
    intro g g' _ h
    injection h with h
    subst h
    refine ⟨rfl, rfl, [], by simp, ?_⟩
    intro q hq
    cases hq
  | cons entry rest ih =>
    intro g g' hwf h
    unfold processGroups at h
    rcases hf : processGroup cm way_tags g entry with e | gmid
    · rw [hf] at h; cases h
    · rw [hf] at h
      obtain ⟨hw1, hg1, newts1, htr1, hcov1⟩ :=
        processGroup_spec (hwf entry (List.mem_cons_self entry rest)) hf
      obtain ⟨hw2, hg2, newts2, htr2, hcov2⟩ :=
        ih gmid g' (fun e he => hwf e (List.mem_cons_of_mem entry he)) h
      refine ⟨hw2.trans hw1, hg2.trans hg1, newts1 ++ newts2, ?_, ?_⟩
      · rw [htr2, htr1, List.append_assoc]
      · intro q hq
        rcases List.mem_append.mp hq with hq | hq
        · exact hcov1 q hq
        · exact hcov2 q hq

theorem keyHasTags_nil_elim {w : WayId} (h : keyHasTags [] w) : False := by
  simp [keyHasTags, lookupAssoc] at h

/-- C1 (amended): after a successful `ingest_tile` on a graph whose existing
transitions already have `WayCoster` entries for their targets, every `to_way`
of every stored transition has a `WayCoster` entry; and each such target way
additionally has a polyline entry provided its own road feature's geometry was
kept (not skipped) in this tile — or it already had one before the call. -/
theorem ingest_tile_transition_targets
    (g0 : Graph) (cm : CostingModel) (x y z extent : Nat)
    (roadsLayer intersectionsLayer : Option (List Feature)) (g1 : Graph)
    (hok : ingest_tile g0 cm x y z extent roadsLayer intersectionsLayer = .ok g1)
    (h0w : transTargetsCovered g0) :
    transTargetsCovered g1
    ∧ ∀ p ∈ g1.transitions,
        ((wayGeometryKept roadsLayer p.2.1.to_way_id ∨ geomHas g0 p.2.1.to_way_id) →
          geomHas g1 p.2.1.to_way_id)
        ∧ ((wayGeometryKept roadsLayer p.2.2.to_way_id ∨ geomHas g0 p.2.2.to_way_id) →
          geomHas g1 p.2.2.to_way_id) := by
  unfold ingest_tile at hok
  rcases roadsLayer with _ | rfeatures
  · -- no roads layer: way_tags is empty, so no transition can be grouped
    dsimp only at hok
    rcases intersectionsLayer with _ | ifeatures
    · dsimp only at hok
      injection hok with hok
      subst hok
      have hgeomAll : ∀ w, (wayGeometryKept none w ∨ geomHas g0 w) → geomHas g0 w := by
        rintro w (⟨f, hf, -, -⟩ | hg)
        · simp at hf
        · exact hg
      exact ⟨h0w, fun p _ => ⟨hgeomAll _, hgeomAll _⟩⟩
    · dsimp only at hok
      rcases hi : processIntersections [] ifeatures ([], g0) with e | st2
      · rw [hi] at hok; cases hok
      · rw [hi] at hok
        obtain ⟨hw2, hg2, ht2, hwf2⟩ := processIntersections_spec [] ifeatures _ _ hi
        have hwfg : groupsWf [] st2.1 := hwf2 (fun e he => by cases he)
        obtain ⟨hw3, hg3, newts, htr3, hcov3⟩ :=
          processGroups_spec cm [] st2.1 st2.2 g1 hwfg hok
        have hnil : newts = [] := by
          cases hn : newts with
          | nil => rfl
          | cons q qs =>
            exact absurd ((hcov3 q (by rw [hn]; exact List.mem_cons_self q qs)).1)
              (fun hq => keyHasTags_nil_elim hq)
        rw [hnil, List.append_nil] at htr3
        have htrans : g1.transitions = g0.transitions := by rw [htr3, ht2]
        have hways : g1.ways = g0.ways := by rw [hw3, hw2]
        have hgeom : g1.geometry = g0.geometry := by rw [hg3, hg2]
        have hgeomAll : ∀ w, (wayGeometryKept none w ∨ geomHas g0 w) → geomHas g1 w := by
          rintro w (⟨f, hf, -, -⟩ | hg)
          · simp at hf
          · unfold geomHas at *
            rw [hgeom]
            exact hg
        constructor
        · intro p hp
          rw [htrans] at hp
          have := h0w p hp
          unfold waysHas at *
          rw [hways]
          exact this
        · exact fun p _ => ⟨hgeomAll _, hgeomAll _⟩
  · -- roads layer present
    dsimp only at hok
    rcases hr : processRoads cm x y z extent rfeatures ([], g0) with e | st1
    · rw [hr] at hok; cases hok
    · rw [hr] at hok
      obtain ⟨⟨ws, hws⟩, ⟨gs, hgs⟩, htr1, _, hcovW, _⟩ :=
        processRoads_spec cm x y z extent rfeatures _ _ hr
      have hbaseW : ∀ w, keyHasTags ([] : List (WayId × Tags)) w →
          (lookupAssoc (([], g0) : List (WayId × Tags) × Graph).2.ways w).isSome = true :=
        fun w hw => absurd hw (fun hq => keyHasTags_nil_elim hq)
      have hcovW' := hcovW hbaseW
      have hkept : ∀ w, wayGeometryKept (some rfeatures) w →
          (lookupAssoc st1.2.geometry w).isSome = true := by
        intro w hk
        obtain ⟨f, hf, hu, hext⟩ := hk
        rw [Option.getD_some] at hf
        exact processRoads_geom_kept cm x y z extent rfeatures _ _ hr w ⟨f, hf, hu, hext⟩
      rcases intersectionsLayer with _ | ifeatures
      · dsimp only at hok
        injection hok with hok
        subst hok
        have hgeomAll : ∀ w, (wayGeometryKept (some rfeatures) w ∨ geomHas g0 w) →
            geomHas st1.2 w := by
          rintro w (hk | hg)
          · exact hkept w hk
          · unfold geomHas at *
            rw [hgs]
            exact lookupAssoc_isSome_append_left gs hg
        constructor
        · intro p hp
          rw [htr1] at hp
          have := h0w p hp
          unfold waysHas at *
          rw [hws]
          exact ⟨lookupAssoc_isSome_append_left ws this.1,
            lookupAssoc_isSome_append_left ws this.2⟩
        · exact fun p _ => ⟨hgeomAll _, hgeomAll _⟩
      · dsimp only at hok
        rcases hi : processIntersections st1.1 ifeatures ([], st1.2) with e | st2
        · rw [hi] at hok; cases hok
        · rw [hi] at hok
          obtain ⟨hw2, hg2, ht2, hwf2⟩ := processIntersections_spec st1.1 ifeatures _ _ hi
          have hwfg : groupsWf st1.1 st2.1 := hwf2 (fun e he => by cases he)
          obtain ⟨hw3, hg3, newts, htr3, hcov3⟩ :=
            processGroups_spec cm st1.1 st2.1 st2.2 g1 hwfg hok
          have hways : g1.ways = g0.ways ++ ws := by rw [hw3, hw2]; exact hws
          have hgeomSt1 : g1.geometry = st1.2.geometry := by rw [hg3, hg2]
          have hgeom : g1.geometry = g0.geometry ++ gs := by rw [hgeomSt1]; exact hgs
          have htrans : g1.transitions = g0.transitions ++ newts := by
            rw [htr3, ht2, htr1]
          have hw1 : st1.2.ways = g0.ways ++ ws := hws
          have hgeomAll : ∀ w, (wayGeometryKept (some rfeatures) w ∨ geomHas g0 w) →
              geomHas g1 w := by
            rintro w (hk | hg)
            · unfold geomHas
              rw [hgeomSt1]
              exact hkept w hk
            · unfold geomHas at *
              rw [hgeom]
              exact lookupAssoc_isSome_append_left gs hg
          constructor
          · intro p hp
            rw [htrans] at hp
            rcases List.mem_append.mp hp with hp | hp
            · have := h0w p hp
              unfold waysHas at *
              rw [hways]
              exact ⟨lookupAssoc_isSome_append_left ws this.1,
                lookupAssoc_isSome_append_left ws this.2⟩
            · have := hcov3 p hp
              unfold waysHas
              have e1 := hcovW' p.2.1.to_way_id this.1
              have e2 := hcovW' p.2.2.to_way_id this.2
              rw [hw1] at e1 e2
              rw [hways]
              exact ⟨e1, e2⟩
          · exact fun p _ => ⟨hgeomAll _, hgeomAll _⟩

/-- A road feature with a plain line-string geometry (way 1). -/
def roadFeatureGood : Feature :=
  { properties := [("way_id", PropValue.uint 1)]
    geometry := .lineString [(0, 0), (1, 1)] }

/-- A road feature whose geometry is a two-part `MultiLineString`, which
ingestion skips after storing the `WayCoster` (way 2). -/
def roadFeatureSkipped : Feature :=
  { properties := [("way_id", PropValue.uint 2)]
    geometry := .multiLineString [[(0, 0)], [(1, 1)]] }

/-- An intersection record allowing a transition from way 1 onto way 2. -/
def intersectionFeature12 : Feature :=
  { properties := [("way_id", PropValue.uint 1), ("transition_to_way", PropValue.uint 2),
      ("distance_along_way", PropValue.floatVal 0),
      ("transition_to_distance_along_way", PropValue.floatVal 0)]
    geometry := .otherGeom }

/-- An intersection record allowing a transition from way 1 back onto
way 1. -/
def intersectionFeature11 : Feature :=
  { properties := [("way_id", PropValue.uint 1), ("transition_to_way", PropValue.uint 1),
      ("distance_along_way", PropValue.floatVal 0),
      ("transition_to_distance_along_way", PropValue.floatVal 0)]
    geometry := .otherGeom }

/-- A costing model that makes every way impassable and every listed
transition free (mirroring `TransitionCostResult::zero`). -/
def zeroCostingModel : CostingModel :=
  { cost_way := fun _ => WayCoster.impassable
    cost_intersection := fun _ ts =>
      { transition_costs := ts.map (fun t => (t.way_transition.to_way_id, RoutingCost.zero))
        continue_cost := some RoutingCost.zero } }

/-- Ingestion of the two-road tile whose second road has skipped geometry. -/
def skippedGeometryIngest : Except String Graph :=
  ingest_tile Graph.new zeroCostingModel 0 0 0 4096
    (some [roadFeatureGood, roadFeatureSkipped]) (some [intersectionFeature12])

/-- The graph produced by `skippedGeometryIngest`. -/
def skippedGeometryGraph : Graph :=
  match skippedGeometryIngest with
  | .ok g => g
  | .error _ => Graph.new

/-- C1 counterexample: ingesting a tile whose road 2 has a two-part
`MultiLineString` geometry succeeds, stores a transition whose `to_way` is
way 2 and a `WayCoster` for way 2, yet stores no polyline for way 2 — so the
claimed polyline half of the invariant fails. -/
theorem ingest_tile_skipped_polyline_counterexample :
    (match skippedGeometryIngest with
     | .ok _ => true
     | .error _ => false) = true
    ∧ (2 : Nat) ∈ skippedGeometryGraph.transitions.map (fun p => p.2.2.to_way_id)
    ∧ lookupAssoc skippedGeometryGraph.geometry 2 = none
    ∧ (lookupAssoc skippedGeometryGraph.ways 2).isSome = true := by
  refine ⟨?_, ?_, ?_, ?_⟩ <;> decide

/-- Ingestion of a fully well-formed one-road tile. -/
def goodIngest : Except String Graph :=
  ingest_tile Graph.new zeroCostingModel 0 0 0 4096
    (some [roadFeatureGood]) (some [intersectionFeature11])

/-- The graph produced by `goodIngest`. -/
def goodIngestGraph : Graph :=
  match goodIngest with
  | .ok g => g
  | .error _ => Graph.new

/-- C1 witness: the amended invariant theorem applied to the concrete
well-formed tile, discharging the success and pre-invariant hypotheses and
the kept-geometry antecedent of a concrete stored transition's target. -/
theorem ingest_tile_transition_targets_witness :
    transTargetsCovered goodIngestGraph ∧ geomHas goodIngestGraph 1 := by
  have h := ingest_tile_transition_targets Graph.new zeroCostingModel 0 0 0 4096
    (some [roadFeatureGood]) (some [intersectionFeature11]) goodIngestGraph
    (by rfl)
    (by intro p hp; cases hp)
  refine ⟨h.1, ?_⟩
  have hp : ((SearchNode.mk 1 (meters_to_mm_fixed 0)),
      (CostedWayTransition.mk 1 RoutingCost.zero,
        WayTransition.mk 1 (meters_to_mm_fixed 0) 1 (meters_to_mm_fixed 0)))
      ∈ goodIngestGraph.transitions := by
    have htr : goodIngestGraph.transitions =
        [((SearchNode.mk 1 (meters_to_mm_fixed 0)),
            (CostedWayTransition.mk 1 RoutingCost.zero,
              WayTransition.mk 1 (meters_to_mm_fixed 0) 1 (meters_to_mm_fixed 0))),
         ((SearchNode.mk 1 (meters_to_mm_fixed 0)),
            (CostedWayTransition.mk 1 RoutingCost.zero,
              WayTransition.mk 1 (meters_to_mm_fixed 0) 1 (meters_to_mm_fixed 0)))] := by
      rfl
    rw [htr]
    exact List.mem_cons_self _ _
  have hk : wayGeometryKept (some [roadFeatureGood]) 1 := by
    refine ⟨roadFeatureGood, ?_, rfl, rfl⟩
    simp
  exact (h.2 _ hp).1 (Or.inl hk)

/-- C4 witness: a candidate whose cost equals the recorded best is not
re-pushed (all three structures unchanged), at a concrete input. -/
theorem dijkstra_relaxation_condition_witness :
    relax_candidate []
        [(SearchNode.mk 1 0, RoutingCost.zero)] []
        (SearchState.mk 0 0 (SearchNode.mk 1 0) (SearchNode.mk 1 0) RoutingCost.zero) =
      ([], [(SearchNode.mk 1 0, RoutingCost.zero)], []) :=
  (dijkstra_relaxation_condition []
      [(SearchNode.mk 1 0, RoutingCost.zero)] []
      (SearchState.mk 0 0 (SearchNode.mk 1 0) (SearchNode.mk 1 0) RoutingCost.zero)).2.2
    (by decide)

end Mot
